import Mathlib

/-!
# plop: static site build pipeline (`main.go`)

A shallow embedding of `parseFile`, `browse`, `generatePage`, `generateFeed` and `build`
of `main.go`, and the properties of the build pipeline proved about it.

Conventions of the embedding.

* A Go `string` is a sequence of bytes.  It is modelled as `Str = List Char`, one element per
  byte.  Every string operation used by the program (`strings.Index`, `strings.Split`,
  `strings.HasPrefix`, slicing) is defined element-wise, and every separator and prefix the
  program uses is ASCII, so the results do not depend on how the elements are read.
* `time.Time` is modelled by the instant it denotes, an integer number of seconds counted from
  the zero `Time` (January 1, year 1, 00:00:00 UTC); `Before` is `<` on instants.
* The calls to the file system, to the template engine, to `time.Parse` and to `sort.Slice`
  are collected in `Env`: each call is a field of the environment, acting on an abstract world `σ`, failing
  with an abstract error `ε`.  The template set held in the global `tpl` is passed explicitly
  as a value of an abstract type `τ`.
* The result of `build` is paired with the list of the calls it made to `parseFile`,
  `generatePage` and `generateFeed`, in order.
* Printing (`fmt.Printf`) is not modelled.
-/

set_option maxRecDepth 100000

namespace Plop

/-! ## Strings -/

/-- A Go string: a sequence of bytes. -/
abbrev Str := List Char

/-- Go's `strings.HasPrefix(s, p)`. -/
def HasPrefix (s p : Str) : Bool := p.isPrefixOf s

/-- Go's `strings.HasSuffix(s, p)`. -/
def HasSuffix (s p : Str) : Bool := p.isSuffixOf s

/-- Go's `strings.Index(s, substr)`: the index of the first instance of `substr` in `s`,
or `-1` if `substr` is not present in `s`. -/
def Index : Str → Str → Int
  | [], substr => if HasPrefix [] substr then 0 else -1
  | c :: s, substr =>
    if HasPrefix (c :: s) substr then 0
    else
      let r := Index s substr
      if r < 0 then -1 else r + 1

/-- Go's `strings.Split(s, sep)` for a separator `sep` of one byte: the pieces of `s`
between the occurrences of `sep`; one piece more than there are occurrences. -/
def Split : Str → Char → List Str
  | [], _ => [[]]
  | c :: s, sep =>
    if c = sep then [] :: Split s sep
    else
      match Split s sep with
      | [] => [[c]]
      | piece :: pieces => (c :: piece) :: pieces

/-! ## Time -/

/-- A `time.Time`, as the instant it denotes: seconds from the zero `Time`. -/
abbrev Time := Int

/-- The zero value `time.Time{}`. -/
def zeroTime : Time := 0

/-- Go's `t.Before(u)`. -/
def Before (t u : Time) : Bool := decide (t < u)

/-- Go's `isDigit`, with the value of the digit. -/
def digitValue (c : Char) : Option Nat :=
  if 48 ≤ c.toNat ∧ c.toNat ≤ 57 then some (c.toNat - 48) else none

/-- Whether `year` is a leap year of the proleptic Gregorian calendar. -/
def isLeap (year : Nat) : Bool :=
  year % 4 = 0 && (year % 100 != 0 || year % 400 = 0)

/-- The number of days of `month` (1 to 12) in `year`. -/
def daysIn (month year : Nat) : Nat :=
  if month = 2 then (if isLeap year then 29 else 28)
  else if month = 4 ∨ month = 6 ∨ month = 9 ∨ month = 11 then 30
  else 31

/-- The instant of `year-month-day 00:00:00 UTC`, in seconds from January 1 of year 1. -/
def dateInstant (year month day : Nat) : Time :=
  let y : Int := (year : Int) - 1
  let daysBeforeYear : Int := 365 * y + y / 4 - y / 100 + y / 400
  let daysBeforeMonth : Nat :=
    ((List.range (month - 1)).map (fun m => daysIn (m + 1) year)).sum
  (daysBeforeYear + daysBeforeMonth + ((day : Int) - 1)) * 86400

/-- A model of the standard library's `time.Parse` at the layout `2006-01-02`, which the
program uses at line 65: four digits, `-`, two digits, `-`, two digits and nothing else, the
month in 1..12 and the day within the month; `none` stands for the error.  The library is not
part of the repository: the theorems below hold for every parser `Env.timeParse`, and this
one serves at concrete inputs. -/
def timeParse (value : Str) : Option Time :=
  match value with
  | [y1, y2, y3, y4, s1, m1, m2, s2, d1, d2] =>
    match digitValue y1, digitValue y2, digitValue y3, digitValue y4,
      digitValue m1, digitValue m2, digitValue d1, digitValue d2 with
    | some a, some b, some c, some d, some e, some f, some g, some h =>
      let year := 1000 * a + 100 * b + 10 * c + d
      let month := 10 * e + f
      let day := 10 * g + h
      if s1 = '-' ∧ s2 = '-' ∧ 1 ≤ month ∧ month ≤ 12 ∧ 1 ≤ day ∧ day ≤ daysIn month year
      then some (dateInstant year month day)
      else none
    | _, _, _, _, _, _, _, _ => none
  | _ => none

/-! ## Data model -/

/-- The struct `pageMetadata` (lines 22-31). -/
structure pageMetadata where
  URI : Str
  Title : Str
  Description : Str
  Date : Time
  Body : Str
  template : Str
  filename : Str
  rss : Bool
  deriving DecidableEq

/-- The data handed to `ExecuteTemplate`: a page (line 116) or the map whose only key,
`Entries`, is bound to the entries (line 132). -/
inductive TemplateData where
  | page (page : pageMetadata)
  | entries (entries : List pageMetadata)
  deriving DecidableEq

/-- One visit of the `filepath.Walk` callback: the path, whether `info.IsDir()`, and the error
the walk hands to the callback, if any. -/
structure WalkEntry (ε : Type) where
  path : Str
  isDir : Bool
  err : Option ε

/-- The calls the program makes outside itself.  `σ` is the state of the world (the file
system), `ε` the type of errors, `τ` the type of a parsed template set (the global `tpl`). -/
structure Env (σ ε τ : Type) where
  /-- Call `ioutil.ReadFile(filename)`. -/
  readFile : σ → Str → Except ε Str
  /-- Call `time.Parse("2006-01-02", value)`; `none` stands for a non-nil error. -/
  timeParse : Str → Option Time
  /-- Test `tpl.Lookup(name) != nil`. -/
  lookup : τ → Str → Bool
  /-- The visits made by `filepath.Walk(folder, fn)`, in order, as long as `fn` returns nil. -/
  walk : σ → Str → List (WalkEntry ε)
  /-- Call `filepath.Dir(path)`. -/
  dir : Str → Str
  /-- Test `os.IsNotExist(err)` for the `err` of `os.Stat(directory)`. -/
  statNotExist : σ → Str → Bool
  /-- Call `os.MkdirAll(directory, 0755)`. -/
  mkdirAll : σ → Str → Except ε σ
  /-- Call `os.Create(name)`; the file is identified by its name. -/
  create : σ → Str → Except ε σ
  /-- Call `file.Close()`, deferred. -/
  close : σ → Str → σ
  /-- Call `tpl.ExecuteTemplate(file, name, data)`. -/
  executeTemplate : τ → σ → Str → Str → TemplateData → Except ε σ
  /-- Call `template.New("main").Funcs(tplFuncs).ParseGlob(pattern)`. -/
  parseGlob : σ → Str → Except ε τ
  /-- Call `sort.Slice(entries, less)`: the entries as the call leaves them.  The function
  `less` is given on the elements it compares. -/
  sortSlice : (pageMetadata → pageMetadata → Bool) → List pageMetadata → List pageMetadata

/-! ## `parseFile` -/

/-- The header/body separator (line 41). -/
def separator : Str := "\n---\n".toList

/-- The page as created at lines 49-52: only `Body` and `filename` are set. -/
def newPage (filename body : Str) : pageMetadata :=
  { URI := [], Title := [], Description := [], Date := zeroTime, Body := body,
    template := [], filename := filename, rss := false }

/-- One iteration of the loop over the header lines: the `switch` of lines 55-68.  The first
case whose prefix matches is taken.  `time.Parse` returns the zero `Time` with its error, and
the error is dropped. -/
def parseLine (timeParse : Str → Option Time) (page : pageMetadata) (line : Str) :
    pageMetadata :=
  if HasPrefix line "title: ".toList then { page with Title := line.drop 7 }
  else if HasPrefix line "description: ".toList then { page with Description := line.drop 13 }
  else if HasPrefix line "template: ".toList then { page with template := line.drop 10 }
  else if HasPrefix line "uri: ".toList then { page with URI := line.drop 5 }
  else if HasPrefix line "date: ".toList then
    { page with Date := (timeParse (line.drop 6)).getD zeroTime }
  else if HasPrefix line "rss: true".toList then { page with rss := true }
  else page

/-- The loop of lines 54-69 over `strings.Split(header, "\n")`. -/
def parseHeader (timeParse : Str → Option Time) (page : pageMetadata) (header : Str) :
    pageMetadata :=
  (Split header '\n').foldl (parseLine timeParse) page

/-- Lines 40-81 of `parseFile`: what it does with the content once the file is read.
`none` is the outcome `return nil, nil`. -/
def parseContent (timeParse : Str → Option Time) (lookup : Str → Bool)
    (filename content : Str) : Option pageMetadata :=
  let position := Index content separator
  if position ≤ 0 then none
  else
    let header := content.take position.toNat
    let page := parseHeader timeParse
      (newPage filename (content.drop (position.toNat + separator.length))) header
    if page.Title = [] ∨ page.template = [] ∨ page.URI = [] then none
    else if lookup page.template = false then none
    else some page

/-- The function `parseFile(filename string) (*pageMetadata, error)` (lines 35-82). -/
def parseFile {σ ε τ : Type} (E : Env σ ε τ) (tpl : τ) (w : σ) (filename : Str) :
    Except ε (Option pageMetadata) :=
  match E.readFile w filename with
  | .error err => .error err
  | .ok content => .ok (parseContent E.timeParse (E.lookup tpl) filename content)

/-! ## `browse` -/

/-- The callback of `filepath.Walk` in `browse` (lines 85-94), run over the visits of the
walk: a visit with an error stops the walk with that error; a path that is not a directory
and ends in `.md` is appended to `files`. -/
def browseVisits {ε : Type} : List (WalkEntry ε) → List Str → Except ε (List Str)
  | [], files => .ok files
  | v :: vs, files =>
    match v.err with
    | some err => .error err
    | none =>
      if !v.isDir && HasSuffix v.path ".md".toList then browseVisits vs (files ++ [v.path])
      else browseVisits vs files

/-- The function `browse(folder string) (files []string, err error)` (lines 84-97); `build` uses
the files only when the error is nil. -/
def browse {σ ε τ : Type} (E : Env σ ε τ) (w : σ) (folder : Str) : Except ε (List Str) :=
  browseVisits (E.walk w folder) []

/-! ## `generatePage` -/

/-- The function `generatePage(page *pageMetadata) error` (lines 99-117).  The result is the world
after the call, or the error returned. -/
def generatePage {σ ε τ : Type} (E : Env σ ε τ) (tpl : τ) (w : σ) (page : pageMetadata) :
    Except ε σ :=
  let directory := E.dir page.URI
  match (if E.statNotExist w directory then E.mkdirAll w directory else .ok w) with
  | .error err => .error err
  | .ok w1 =>
    match E.create w1 page.URI with
    | .error err => .error err
    | .ok w2 =>
      match E.executeTemplate tpl w2 page.URI page.template (.page page) with
      | .error err => .error err
      | .ok w3 => .ok (E.close w3 page.URI)

/-! ## `generateFeed` -/

/-- The inner loop of the insertion sort: `for j := i; j > a && less(j, j-1); j--` swaps
the new element `x` leftwards.  The elements to its left are given nearest first. -/
def insertLeft {α : Type} (less : α → α → Bool) (x : α) : List α → List α
  | [] => [x]
  | y :: left => if less x y then y :: insertLeft less x left else x :: y :: left

/-- The insertion sort of Go's package `sort`
(`for i := a + 1; i < b; i++ { for j := i; j > a && less(j, j-1); j-- { swap(j, j-1) } }`).
It is all that `sort.Slice` runs on a slice of at most 6 elements (of at most 12 from Go
1.19 on); on a longer slice `sort.Slice` runs another, unstable, algorithm.  It is not the
model of `sort.Slice`, which is the field `Env.sortSlice`: it serves as one sort that meets
the contract `SortSliceContract`, and in the concrete world below, which is run on at most
three entries. -/
def insertionSort {α : Type} (less : α → α → Bool) (data : List α) : List α :=
  (data.foldl (fun left x => insertLeft less x left) []).reverse

/-- The contract of `sort.Slice`, as the library documents it.  When `less` is a transitive
ordering (no two elements are each less than the other, `less` is transitive, and so is its
negation), the slice after the call is a rearrangement of the slice before it, and it is
sorted as `sort.SliceIsSorted` tests it: no element is less than the one just before it.
Nothing is promised on the order of elements of which neither is less than the other. -/
def SortSliceContract
    (sort : (pageMetadata → pageMetadata → Bool) → List pageMetadata → List pageMetadata) :
    Prop :=
  ∀ less : pageMetadata → pageMetadata → Bool,
    (∀ a b, less a b = true → less b a = false) →
    (∀ a b c, less a b = true → less b c = true → less a c = true) →
    (∀ a b c, less a b = false → less b c = false → less a c = false) →
    ∀ data : List pageMetadata,
      (sort less data).Perm data ∧ (sort less data).Chain' (fun a b => less b a = false)

/-- The `less` function of line 121: `entries[j].Date.Before(entries[i].Date)`, at the
elements `a = entries[i]` and `b = entries[j]`. -/
def lessEntries (a b : pageMetadata) : Bool := Before b.Date a.Date

/-- The file name of the feed (line 124). -/
def feedFilename : Str := "feed.xml".toList

/-- The function `generateFeed(entries []pageMetadata) error` (lines 119-133). -/
def generateFeed {σ ε τ : Type} (E : Env σ ε τ) (tpl : τ) (w : σ)
    (entries : List pageMetadata) : Except ε σ :=
  let entries := E.sortSlice lessEntries entries
  match E.create w feedFilename with
  | .error err => .error err
  | .ok w1 =>
    match E.executeTemplate tpl w1 feedFilename "rss".toList (.entries entries) with
    | .error err => .error err
    | .ok w2 => .ok (E.close w2 feedFilename)

/-! ## `build` -/

/-- A call of one of the program's own functions made by `build`, with its argument. -/
inductive Call where
  | parseFile (filename : Str)
  | generatePage (page : pageMetadata)
  | generateFeed (entries : List pageMetadata)
  deriving DecidableEq

/-- The loop of lines 174-189 over the scanned files, from the world `w` and the entries
collected so far.  It yields the calls made, in order, and either the error returned by
`build` from inside the loop or the world and the feed entries at the end of the loop. -/
def buildLoop {σ ε τ : Type} (E : Env σ ε τ) (tpl : τ) :
    List Str → σ → List pageMetadata → List Call × Except ε (σ × List pageMetadata)
  | [], w, feedEntries => ([], .ok (w, feedEntries))
  | file :: files, w, feedEntries =>
    match parseFile E tpl w file with
    | .error err => ([.parseFile file], .error err)
    | .ok none =>
      let r := buildLoop E tpl files w feedEntries
      (.parseFile file :: r.1, r.2)
    | .ok (some page) =>
      match generatePage E tpl w page with
      | .error err => ([.parseFile file, .generatePage page], .error err)
      | .ok w1 =>
        let r := buildLoop E tpl files w1
          (if page.rss then feedEntries ++ [page] else feedEntries)
        (.parseFile file :: .generatePage page :: r.1, r.2)

/-- Lines 191-197: the feed is generated when there are entries. -/
def buildFeed {σ ε τ : Type} (E : Env σ ε τ) (tpl : τ) (w : σ)
    (feedEntries : List pageMetadata) : List Call × Except ε σ :=
  if feedEntries.length > 0 then
    ([.generateFeed feedEntries], generateFeed E tpl w feedEntries)
  else ([], .ok w)

/-- The function `build(srcFolder, tplFolder string) (err error)` (lines 135-198).  It yields the
calls of `parseFile`, `generatePage` and `generateFeed` made, in order, and the result:
the error returned, or the world at the end when `build` returns nil. -/
def build {σ ε τ : Type} (E : Env σ ε τ) (w : σ) (srcFolder tplFolder : Str) :
    List Call × Except ε σ :=
  match E.parseGlob w (tplFolder ++ "/*.html".toList) with
  | .error err => ([], .error err)
  | .ok tpl =>
    match browse E w srcFolder with
    | .error err => ([], .error err)
    | .ok files =>
      match buildLoop E tpl files w [] with
      | (calls, .error err) => (calls, .error err)
      | (calls, .ok (w1, feedEntries)) =>
        let r := buildFeed E tpl w1 feedEntries
        (calls ++ r.1, r.2)

/-- The pages `generatePage` is called on, in order. -/
def renderedPages : List Call → List pageMetadata
  | [] => []
  | .generatePage page :: calls => page :: renderedPages calls
  | _ :: calls => renderedPages calls

/-- The files `parseFile` is called on, in order. -/
def parsedFiles : List Call → List Str
  | [] => []
  | .parseFile filename :: calls => filename :: parsedFiles calls
  | _ :: calls => parsedFiles calls

/-- The entry lists `generateFeed` is called on, in order. -/
def feedCalls : List Call → List (List pageMetadata)
  | [] => []
  | .generateFeed entries :: calls => entries :: feedCalls calls
  | _ :: calls => feedCalls calls

/-! ## The specification's vocabulary -/

/-- The validity of a page, in the words of the specification: `Title`, `TemplateName` and
`URI` are non-empty and `TemplateName` resolves in the registry. -/
def valid (lookup : Str → Bool) (page : pageMetadata) : Prop :=
  page.Title ≠ [] ∧ page.template ≠ [] ∧ page.URI ≠ [] ∧ lookup page.template = true

instance (lookup : Str → Bool) (page : pageMetadata) : Decidable (valid lookup page) := by
  unfold valid
  infer_instance

/-- The header of a content: the text before the first occurrence of the separator. -/
def headerOf (content : Str) : Str := content.take (Index content separator).toNat

/-- The lines of the header of a content. -/
def headerLines (content : Str) : List Str := Split (headerOf content) '\n'

/-- The value of a header field, in the words of the specification: the text after the key
on the last line of the header that starts with the key, empty when no line does. -/
def fieldValue (key : Str) (lines : List Str) : Str :=
  match (lines.filter (fun l => HasPrefix l key)).getLast? with
  | some line => line.drop key.length
  | none => []

/-- The documents that are rendered, in the words of the specification: the separator occurs
in the content and its first occurrence is at a position greater than 0 (the content does
not start with it), the header gives a non-empty title, template and uri, and the template
name resolves in the registry. -/
def accepted (lookup : Str → Bool) (content : Str) : Prop :=
  (separator <:+: content ∧ ¬ separator <+: content) ∧
  fieldValue "title: ".toList (headerLines content) ≠ [] ∧
  fieldValue "template: ".toList (headerLines content) ≠ [] ∧
  fieldValue "uri: ".toList (headerLines content) ≠ [] ∧
  lookup (fieldValue "template: ".toList (headerLines content)) = true

instance (lookup : Str → Bool) (content : Str) : Decidable (accepted lookup content) := by
  unfold accepted
  infer_instance

/-- The reads and the renderings of a run of the loop of `build` all succeed: from the world
`w`, each file in turn is read without an error, `contents` giving the content read, and,
when `parseFile` returns a page for it, `generatePage` returns no error on that page, in the
world as it is then; the next file is handled in the world `generatePage` leaves.  Nothing
is asked of a read or of a rendering that the run does not make. -/
def allSucceed {σ ε τ : Type} (E : Env σ ε τ) (tpl : τ) : List Str → List Str → σ → Prop
  | [], [], _ => True
  | file :: files, content :: contents, w =>
    E.readFile w file = .ok content ∧
    match parseContent E.timeParse (E.lookup tpl) file content with
    | none => allSucceed E tpl files contents w
    | some page => ∃ w1, generatePage E tpl w page = .ok w1 ∧ allSucceed E tpl files contents w1
  | _, _, _ => False

/-! ## A concrete world -/

/-- A small world to run the program in.  The source files are `sources` (name and content),
all found by the walk; the templates defined are `templates`; `os.Create` fails on the names
in `failing`; nothing else fails; `sort.Slice` is the insertion sort, which is what the
library runs on the slices of at most three entries met below.  The state of the world is
the list of the outputs written so far: the file, the template executed into it and the data
handed to the template. -/
def demoEnv (sources : List (Str × Str)) (templates failing : List Str) :
    Env (List (Str × Str × TemplateData)) Str (List Str) where
  readFile := fun _ filename =>
    match sources.lookup filename with
    | some content => .ok content
    | none => .error "no such file".toList
  timeParse := timeParse
  lookup := fun tpl name => tpl.contains name
  walk := fun _ _ => sources.map (fun s => { path := s.1, isDir := false, err := none })
  dir := fun _ => ".".toList
  statNotExist := fun _ _ => false
  mkdirAll := fun w _ => .ok w
  create := fun w name =>
    if failing.contains name then .error "permission denied".toList else .ok w
  close := fun w _ => w
  executeTemplate := fun _ w file name data => .ok (w ++ [(file, name, data)])
  parseGlob := fun _ _ => .ok templates
  sortSlice := insertionSort

/-- A complete document: title, template, uri, a date and the feed flag. -/
def docA : Str := "title: A\ntemplate: t\nuri: a\ndate: 2023-01-01\nrss: true\n---\nbody A".toList

/-- A document without the separator. -/
def docNoHeader : Str := "title: B\ntemplate: t\nuri: b\n".toList

/-- A document that starts with the separator. -/
def docEmptyHeader : Str := "\n---\ntitle: B".toList

/-- A document without a title. -/
def docNoTitle : Str := "template: t\nuri: c\n---\nbody C".toList

/-- A complete document that does not ask for the feed. -/
def docD : Str := "title: D\ntemplate: t\nuri: d\n---\nbody D".toList

/-- A complete document whose only feed line is `rss: trueish`. -/
def docTrueish : Str := "title: T\ntemplate: t\nuri: u\nrss: trueish\n---\nbody".toList

/-- A complete document with a valid date line followed by the line `date: not-a-date`. -/
def docBadDate : Str :=
  "title: A\ntemplate: t\nuri: a\ndate: 2023-01-01\ndate: not-a-date\n---\nbody".toList

/-- The document `docBadDate` without its line `date: not-a-date`. -/
def docGoodDate : Str := "title: A\ntemplate: t\nuri: a\ndate: 2023-01-01\n---\nbody".toList

/-- A feed entry with the given title and date. -/
def entry (title : Str) (date : Time) : pageMetadata :=
  { URI := title, Title := title, Description := [], Date := date, Body := [],
    template := "t".toList, filename := title, rss := true }

/-- The sources of a run in which every step succeeds: a complete document, one without the
separator, one without a title and a second complete document. -/
def demoSources : List (Str × Str) :=
  [("a.md".toList, docA), ("b.md".toList, docNoHeader), ("c.md".toList, docNoTitle),
    ("d.md".toList, docD)]

/-- The content of a source file of `demoSources`. -/
def demoContent (filename : Str) : Str := (demoSources.lookup filename).getD []

/-- The sources of a run in which the second rendering fails: three complete documents. -/
def failSources : List (Str × Str) :=
  [("a.md".toList, docA), ("d.md".toList, docD), ("z.md".toList, docA)]

/-- The page read from `docA` in the file `a.md`. -/
def pageA : pageMetadata :=
  { URI := "a".toList, Title := "A".toList, Description := [], Date := 63808128000,
    Body := "body A".toList, template := "t".toList, filename := "a.md".toList, rss := true }

/-- The page read from `docD` in the file `d.md`. -/
def pageD : pageMetadata :=
  { URI := "d".toList, Title := "D".toList, Description := [], Date := zeroTime,
    Body := "body D".toList, template := "t".toList, filename := "d.md".toList, rss := false }

/-- A complete, feed-eligible document dated 2023-01-01. -/
def docX : Str := "title: X\ntemplate: t\nuri: x\ndate: 2023-01-01\nrss: true\n---\nx".toList

/-- Another complete, feed-eligible document with the same date. -/
def docY : Str := "title: Y\ntemplate: t\nuri: y\ndate: 2023-01-01\nrss: true\n---\ny".toList

/-- The page read from `docX` in the file `x.md`. -/
def pageX : pageMetadata :=
  { URI := "x".toList, Title := "X".toList, Description := [], Date := 63808128000,
    Body := "x".toList, template := "t".toList, filename := "x.md".toList, rss := true }

/-- The page read from `docY` in the file `y.md`. -/
def pageY : pageMetadata :=
  { URI := "y".toList, Title := "Y".toList, Description := [], Date := 63808128000,
    Body := "y".toList, template := "t".toList, filename := "y.md".toList, rss := true }

/-- A document with two title lines, the second one empty. -/
def docTitleTwice : Str := "title: A\ntitle: \ntemplate: t\nuri: a\n---\nbody".toList

/-! ## Lemmas: strings -/

theorem hasPrefix_iff (s p : Str) : HasPrefix s p = true ↔ p <+: s := by
  unfold HasPrefix
  exact List.isPrefixOf_iff_prefix

theorem index_ge (s substr : Str) : -1 ≤ Index s substr := by
  induction s with
  | nil => unfold Index; split <;> simp
  | cons c s ih =>
    unfold Index
    split
    · simp
    · simp only
      split <;> omega

/-- What a non-negative result of `Index` means: `substr` occurs at that position and at no
earlier one. -/
theorem index_spec (substr : Str) :
    ∀ (s : Str) (n : Nat), Index s substr = (n : Int) →
      substr <+: s.drop n ∧ ∀ k, k < n → ¬ substr <+: s.drop k := by
  intro s
  induction s with
  | nil =>
    intro n h
    unfold Index at h
    split at h
    · rename_i hp
      have hn : n = 0 := by omega
      subst hn
      exact ⟨(hasPrefix_iff _ _).1 hp, fun k hk => absurd hk (Nat.not_lt_zero k)⟩
    · omega
  | cons c s ih =>
    intro n h
    unfold Index at h
    split at h
    · rename_i hp
      have hn : n = 0 := by omega
      subst hn
      exact ⟨(hasPrefix_iff _ _).1 hp, fun k hk => absurd hk (Nat.not_lt_zero k)⟩
    · rename_i hp
      simp only at h
      split at h
      · omega
      · rename_i hr
        have hge : 0 ≤ Index s substr := by omega
        obtain ⟨m, hm⟩ := Int.eq_ofNat_of_zero_le hge
        have hn : n = m + 1 := by omega
        subst hn
        obtain ⟨h1, h2⟩ := ih m hm
        refine ⟨by simpa using h1, ?_⟩
        intro k hk
        cases k with
        | zero =>
          intro hpre
          exact hp ((hasPrefix_iff _ _).2 (by simpa using hpre))
        | succ k =>
          have := h2 k (by omega)
          simpa using this

theorem index_zero (s substr : Str) (h : substr <+: s) : Index s substr = 0 := by
  have hp := (hasPrefix_iff s substr).2 h
  cases s with
  | nil => unfold Index; simp [hp]
  | cons c s => unfold Index; simp [hp]

theorem infix_of_prefix_drop {s substr : Str} {n : Nat} (h : substr <+: s.drop n) :
    substr <:+: s := by
  obtain ⟨t, ht⟩ := h
  exact ⟨s.take n, t, by rw [List.append_assoc, ht, List.take_append_drop]⟩

theorem infix_occurs {s substr : Str} (h : substr <:+: s) :
    ∃ k, k + substr.length ≤ s.length ∧ substr <+: s.drop k := by
  obtain ⟨a, b, hab⟩ := h
  refine ⟨a.length, ?_, ?_⟩
  · rw [← hab]; simp
  · rw [← hab, List.append_assoc, List.drop_left]
    exact List.prefix_append _ _

/-- Go's contract of `strings.Index`: the result is `-1` when `substr` does not occur. -/
theorem index_absent (s substr : Str) (h : ¬ substr <:+: s) : Index s substr = -1 := by
  have hge := index_ge s substr
  by_contra hne
  have h0 : 0 ≤ Index s substr := by omega
  obtain ⟨m, hm⟩ := Int.eq_ofNat_of_zero_le h0
  exact h (infix_of_prefix_drop (index_spec substr s m hm).1)

/-- The decomposition of a content at a positive `Index`: the header before the first
occurrence, the separator, and the rest. -/
theorem index_split (s substr : Str) (n : Nat) (h : Index s substr = (n : Int)) :
    s = s.take n ++ substr ++ s.drop (n + substr.length) ∧
    (s.take n).length = n ∧
    (0 < substr.length → ¬ substr <:+: s.take n) := by
  obtain ⟨h1, h2⟩ := index_spec substr s n h
  have hd : substr ++ (s.drop n).drop substr.length = s.drop n :=
    List.prefix_iff_eq_append.1 h1
  have hlen : n + substr.length ≤ s.length := by
    have := h1.length_le
    simp at this
    by_cases hs : substr.length = 0
    · have h3 : n ≤ s.length := by
        by_contra hc
        have hc2 : s.length ≤ n := by omega
        cases n with
        | zero => omega
        | succ m =>
          have h4 := h2 m (by omega)
          have h5 : substr = [] := List.length_eq_zero.1 hs
          exact h4 (by rw [h5]; exact List.nil_prefix)
      omega
    · omega
  refine ⟨?_, ?_, ?_⟩
  · rw [List.drop_drop] at hd
    rw [List.append_assoc, hd, List.take_append_drop]
  · simp; omega
  · intro hpos hin
    obtain ⟨k, hk1, hk2⟩ := infix_occurs hin
    have hk : k < n := by
      simp at hk1
      omega
    apply h2 k hk
    rw [List.drop_take] at hk2
    exact hk2.trans (List.take_prefix _ _)

theorem index_nonneg_of_occurrence (substr : Str) :
    ∀ (s : Str) (k : Nat), substr <+: s.drop k → 0 ≤ Index s substr := by
  intro s
  induction s with
  | nil =>
    intro k h
    rw [List.drop_nil] at h
    rw [index_zero [] substr h]
  | cons c s ih =>
    intro k h
    by_cases hp : HasPrefix (c :: s) substr = true
    · rw [index_zero _ _ ((hasPrefix_iff _ _).1 hp)]
    · cases k with
      | zero => exact absurd ((hasPrefix_iff _ _).2 h) hp
      | succ k =>
        have hr := ih k (by simpa using h)
        unfold Index
        rw [if_neg hp]
        simp only
        rw [if_neg (by omega)]
        omega

/-- The result of `Index` is positive exactly when `substr` occurs in `s` and `s` does not
start with it: the first occurrence is at a position greater than 0. -/
theorem index_pos_iff (s substr : Str) :
    0 < Index s substr ↔ substr <:+: s ∧ ¬ substr <+: s := by
  constructor
  · intro hpos
    obtain ⟨n, hn⟩ := Int.eq_ofNat_of_zero_le (le_of_lt hpos)
    obtain ⟨h1, h2⟩ := index_spec substr s n hn
    exact ⟨infix_of_prefix_drop h1, by simpa using h2 0 (by omega)⟩
  · rintro ⟨hin, hnp⟩
    obtain ⟨k, -, hk⟩ := infix_occurs hin
    have h0 := index_nonneg_of_occurrence substr s k hk
    have hne : Index s substr ≠ 0 := by
      intro h
      exact hnp (by simpa using (index_spec substr s 0 (by simpa using h)).1)
    omega

/-! ## Lemmas: the header loop -/

/-- A line determines the first two bytes of each of its prefixes: two keys that differ
there do not match the same line. -/
theorem key_clash {l k1 k2 : Str} (h1 : HasPrefix l k1 = true) (h2 : HasPrefix l k2 = true)
    (hk1 : 2 ≤ k1.length) (hk2 : 2 ≤ k2.length) : k1.take 2 = k2.take 2 := by
  rw [hasPrefix_iff] at h1 h2
  obtain ⟨t1, rfl⟩ := h1
  obtain ⟨t2, h2⟩ := h2
  have e1 : (k1 ++ t1).take 2 = k1.take 2 := List.take_append_of_le_length hk1
  have e2 : (k2 ++ t2).take 2 = k2.take 2 := List.take_append_of_le_length hk2
  rw [← e1, ← e2, h2]

theorem parseLine_Body (tp : Str → Option Time) (p : pageMetadata) (l : Str) :
    (parseLine tp p l).Body = p.Body := by
  unfold parseLine
  split_ifs <;> rfl

theorem parseLine_filename (tp : Str → Option Time) (p : pageMetadata) (l : Str) :
    (parseLine tp p l).filename = p.filename := by
  unfold parseLine
  split_ifs <;> rfl

theorem parseLine_Title (tp : Str → Option Time) (p : pageMetadata) (l : Str) :
    (parseLine tp p l).Title =
      if HasPrefix l "title: ".toList then l.drop 7 else p.Title := by
  unfold parseLine
  split_ifs <;> rfl

theorem parseLine_template (tp : Str → Option Time) (p : pageMetadata) (l : Str) :
    (parseLine tp p l).template =
      if HasPrefix l "template: ".toList then l.drop 10 else p.template := by
  unfold parseLine
  split_ifs
  all_goals first
    | rfl
    | exact absurd (key_clash ‹HasPrefix l "title: ".toList = true›
        ‹HasPrefix l "template: ".toList = true› (by decide) (by decide)) (by decide)
    | exact absurd (key_clash ‹HasPrefix l "description: ".toList = true›
        ‹HasPrefix l "template: ".toList = true› (by decide) (by decide)) (by decide)

theorem parseLine_URI (tp : Str → Option Time) (p : pageMetadata) (l : Str) :
    (parseLine tp p l).URI =
      if HasPrefix l "uri: ".toList then l.drop 5 else p.URI := by
  unfold parseLine
  split_ifs
  all_goals first
    | rfl
    | exact absurd (key_clash ‹HasPrefix l "title: ".toList = true›
        ‹HasPrefix l "uri: ".toList = true› (by decide) (by decide)) (by decide)
    | exact absurd (key_clash ‹HasPrefix l "description: ".toList = true›
        ‹HasPrefix l "uri: ".toList = true› (by decide) (by decide)) (by decide)
    | exact absurd (key_clash ‹HasPrefix l "template: ".toList = true›
        ‹HasPrefix l "uri: ".toList = true› (by decide) (by decide)) (by decide)

theorem parseLine_Date (tp : Str → Option Time) (p : pageMetadata) (l : Str) :
    (parseLine tp p l).Date =
      if HasPrefix l "date: ".toList then (tp (l.drop 6)).getD zeroTime else p.Date := by
  unfold parseLine
  split_ifs
  all_goals first
    | rfl
    | exact absurd (key_clash ‹HasPrefix l "title: ".toList = true›
        ‹HasPrefix l "date: ".toList = true› (by decide) (by decide)) (by decide)
    | exact absurd (key_clash ‹HasPrefix l "description: ".toList = true›
        ‹HasPrefix l "date: ".toList = true› (by decide) (by decide)) (by decide)
    | exact absurd (key_clash ‹HasPrefix l "template: ".toList = true›
        ‹HasPrefix l "date: ".toList = true› (by decide) (by decide)) (by decide)
    | exact absurd (key_clash ‹HasPrefix l "uri: ".toList = true›
        ‹HasPrefix l "date: ".toList = true› (by decide) (by decide)) (by decide)

theorem parseLine_rss (tp : Str → Option Time) (p : pageMetadata) (l : Str) :
    (parseLine tp p l).rss = (p.rss || HasPrefix l "rss: true".toList) := by
  unfold parseLine
  by_cases hrss : HasPrefix l "rss: true".toList = true
  all_goals split_ifs
  all_goals first
    | exact absurd (key_clash ‹HasPrefix l "title: ".toList = true›
        ‹HasPrefix l "rss: true".toList = true› (by decide) (by decide)) (by decide)
    | exact absurd (key_clash ‹HasPrefix l "description: ".toList = true›
        ‹HasPrefix l "rss: true".toList = true› (by decide) (by decide)) (by decide)
    | exact absurd (key_clash ‹HasPrefix l "template: ".toList = true›
        ‹HasPrefix l "rss: true".toList = true› (by decide) (by decide)) (by decide)
    | exact absurd (key_clash ‹HasPrefix l "uri: ".toList = true›
        ‹HasPrefix l "rss: true".toList = true› (by decide) (by decide)) (by decide)
    | exact absurd (key_clash ‹HasPrefix l "date: ".toList = true›
        ‹HasPrefix l "rss: true".toList = true› (by decide) (by decide)) (by decide)
    | simp_all

theorem foldl_field {β : Type} (g : pageMetadata → β) (f : β → Str → β)
    (tp : Str → Option Time) (hg : ∀ p l, g (parseLine tp p l) = f (g p) l) :
    ∀ (ls : List Str) (p : pageMetadata),
      g (ls.foldl (parseLine tp) p) = ls.foldl f (g p) := by
  intro ls
  induction ls with
  | nil => intro p; rfl
  | cons l ls ih =>
    intro p
    rw [List.foldl_cons, List.foldl_cons, ih, hg]

theorem parseHeader_Body (tp : Str → Option Time) (p : pageMetadata) (header : Str) :
    (parseHeader tp p header).Body = p.Body := by
  unfold parseHeader
  rw [foldl_field (fun q => q.Body) (fun b _ => b) tp (parseLine_Body tp)]
  clear tp
  induction Split header '\n' with
  | nil => rfl
  | cons l ls ih => simp

theorem parseHeader_filename (tp : Str → Option Time) (p : pageMetadata) (header : Str) :
    (parseHeader tp p header).filename = p.filename := by
  unfold parseHeader
  rw [foldl_field (fun q => q.filename) (fun b _ => b) tp (parseLine_filename tp)]
  clear tp
  induction Split header '\n' with
  | nil => rfl
  | cons l ls ih => simp

/-- The outcome of `parseContent` is a page exactly when the separator is found at a positive
position, the page read from the header has its three required fields and its template is
defined; the page is then the one read from the header. -/
theorem parseContent_eq_some (tp : Str → Option Time) (lookup : Str → Bool)
    (filename content : Str) (page : pageMetadata) :
    parseContent tp lookup filename content = some page ↔
      0 < Index content separator ∧
      page = parseHeader tp (newPage filename
        (content.drop ((Index content separator).toNat + separator.length)))
        (headerOf content) ∧
      valid lookup page := by
  unfold parseContent valid headerOf
  simp only
  by_cases hpos : Index content separator ≤ 0
  · rw [if_pos hpos]
    constructor
    · intro h; cases h
    · intro h; omega
  · rw [if_neg hpos]
    split_ifs with h1 h2
    · constructor
      · intro h; cases h
      · rintro ⟨-, rfl, h3, h4, h5, -⟩
        rcases h1 with h | h | h
        · exact absurd h h3
        · exact absurd h h4
        · exact absurd h h5
    · constructor
      · intro h; cases h
      · rintro ⟨-, rfl, -, -, -, h6⟩
        rw [h2] at h6
        cases h6
    · constructor
      · intro h
        injection h with h
        subst h
        refine ⟨by omega, rfl, ?_, ?_, ?_, ?_⟩
        · exact fun h => h1 (Or.inl h)
        · exact fun h => h1 (Or.inr (Or.inl h))
        · exact fun h => h1 (Or.inr (Or.inr h))
        · simpa using h2
      · rintro ⟨-, rfl, -⟩
        rfl

theorem renderedPages_append (a b : List Call) :
    renderedPages (a ++ b) = renderedPages a ++ renderedPages b := by
  induction a with
  | nil => rfl
  | cons c a ih => cases c <;> simp [renderedPages, ih]

theorem parsedFiles_append (a b : List Call) :
    parsedFiles (a ++ b) = parsedFiles a ++ parsedFiles b := by
  induction a with
  | nil => rfl
  | cons c a ih => cases c <;> simp [parsedFiles, ih]

theorem feedCalls_append (a b : List Call) :
    feedCalls (a ++ b) = feedCalls a ++ feedCalls b := by
  induction a with
  | nil => rfl
  | cons c a ih => cases c <;> simp [feedCalls, ih]

theorem parseFile_ok_some {σ ε τ : Type} (E : Env σ ε τ) (tpl : τ) (w : σ)
    (filename : Str) (page : pageMetadata)
    (h : parseFile E tpl w filename = .ok (some page)) :
    ∃ content, E.readFile w filename = .ok content ∧
      parseContent E.timeParse (E.lookup tpl) filename content = some page := by
  unfold parseFile at h
  split at h
  · cases h
  · rename_i content hc
    injection h with h
    exact ⟨content, hc, h⟩

/-- Every page the loop of `build` hands to `generatePage` is valid. -/
theorem buildLoop_rendered_valid {σ ε τ : Type} (E : Env σ ε τ) (tpl : τ) :
    ∀ (files : List Str) (w : σ) (feedEntries : List pageMetadata) (page : pageMetadata),
      page ∈ renderedPages (buildLoop E tpl files w feedEntries).1 →
      valid (E.lookup tpl) page := by
  intro files
  induction files with
  | nil =>
    intro w fe page h
    simp [buildLoop, renderedPages] at h
  | cons file files ih =>
    intro w fe page h
    unfold buildLoop at h
    split at h
    · simp [renderedPages] at h
    · simp only [renderedPages] at h
      exact ih _ _ _ h
    · rename_i pg hpg
      obtain ⟨content, -, hc⟩ := parseFile_ok_some E tpl w file pg hpg
      have hv := ((parseContent_eq_some _ _ _ _ _).1 hc).2.2
      split at h
      · simp only [renderedPages, List.mem_cons, List.mem_nil_iff, or_false] at h
        rw [h]; exact hv
      · simp only [renderedPages, List.mem_cons] at h
        rcases h with h | h
        · rw [h]; exact hv
        · exact ih _ _ _ h

theorem buildFeed_rendered {σ ε τ : Type} (E : Env σ ε τ) (tpl : τ) (w : σ)
    (feedEntries : List pageMetadata) :
    renderedPages (buildFeed E tpl w feedEntries).1 = [] ∧
    parsedFiles (buildFeed E tpl w feedEntries).1 = [] := by
  unfold buildFeed
  split_ifs <;> simp [renderedPages, parsedFiles]

/-! ## Lemmas: the fields read from the header -/

theorem foldl_or_any (f : Str → Bool) :
    ∀ (ls : List Str) (b : Bool), ls.foldl (fun acc l => acc || f l) b = (b || ls.any f) := by
  intro ls
  induction ls with
  | nil => intro b; simp
  | cons l ls ih =>
    intro b
    rw [List.foldl_cons, ih, List.any_cons, Bool.or_assoc]

/-- The feed flag after the header loop: set when it was set before or some line starts
with `rss: true`. -/
theorem foldl_rss (tp : Str → Option Time) (ls : List Str) (p : pageMetadata) :
    (ls.foldl (parseLine tp) p).rss =
      (p.rss || ls.any (fun l => HasPrefix l "rss: true".toList)) := by
  rw [foldl_field (fun q => q.rss) (fun b l => b || HasPrefix l "rss: true".toList) tp
    (parseLine_rss tp)]
  exact foldl_or_any _ ls p.rss

/-- The header loop keeps, for a key, the value of the last line that starts with it. -/
theorem foldl_key (key : Str) (n : Nat) :
    ∀ (ls : List Str) (cur : Str),
      ls.foldl (fun b l => if HasPrefix l key then l.drop n else b) cur =
        match (ls.filter (fun l => HasPrefix l key)).getLast? with
        | some line => line.drop n
        | none => cur := by
  intro ls
  induction ls with
  | nil => intro cur; rfl
  | cons l ls ih =>
    intro cur
    rw [List.foldl_cons, ih, List.filter_cons]
    by_cases hl : HasPrefix l key = true
    · simp only [hl, if_true, List.getLast?_cons]
      cases (List.filter (fun l => HasPrefix l key) ls).getLast? <;> rfl
    · simp only [hl]
      rfl

theorem header_Title (tp : Str → Option Time) (ls : List Str) (filename body : Str) :
    (ls.foldl (parseLine tp) (newPage filename body)).Title =
      fieldValue "title: ".toList ls := by
  rw [foldl_field (fun q => q.Title)
    (fun b l => if HasPrefix l "title: ".toList then l.drop 7 else b) tp (parseLine_Title tp)]
  exact foldl_key _ _ ls _

theorem header_template (tp : Str → Option Time) (ls : List Str) (filename body : Str) :
    (ls.foldl (parseLine tp) (newPage filename body)).template =
      fieldValue "template: ".toList ls := by
  rw [foldl_field (fun q => q.template)
    (fun b l => if HasPrefix l "template: ".toList then l.drop 10 else b) tp
    (parseLine_template tp)]
  exact foldl_key _ _ ls _

theorem header_URI (tp : Str → Option Time) (ls : List Str) (filename body : Str) :
    (ls.foldl (parseLine tp) (newPage filename body)).URI =
      fieldValue "uri: ".toList ls := by
  rw [foldl_field (fun q => q.URI)
    (fun b l => if HasPrefix l "uri: ".toList then l.drop 5 else b) tp (parseLine_URI tp)]
  exact foldl_key _ _ ls _

/-- The fields of a page returned by `parseContent` are the values the header gives. -/
theorem parseContent_fields (tp : Str → Option Time) (lookup : Str → Bool)
    (filename content : Str) (page : pageMetadata)
    (h : parseContent tp lookup filename content = some page) :
    page.Title = fieldValue "title: ".toList (headerLines content) ∧
    page.template = fieldValue "template: ".toList (headerLines content) ∧
    page.URI = fieldValue "uri: ".toList (headerLines content) ∧
    page.filename = filename := by
  obtain ⟨-, hpage, -⟩ := (parseContent_eq_some _ _ _ _ _).1 h
  rw [hpage]
  refine ⟨header_Title tp _ _ _, header_template tp _ _ _, header_URI tp _ _ _, ?_⟩
  rw [parseHeader_filename]
  rfl

/-- The function `parseContent` returns a page exactly for the accepted contents. -/
theorem parseContent_isSome_iff (tp : Str → Option Time) (lookup : Str → Bool)
    (filename content : Str) :
    (parseContent tp lookup filename content).isSome = true ↔ accepted lookup content := by
  rw [Option.isSome_iff_exists]
  constructor
  · rintro ⟨page, h⟩
    obtain ⟨hT, hTp, hU, -⟩ := parseContent_fields tp lookup filename content page h
    obtain ⟨hpos, -, h1, h2, h3, h4⟩ := (parseContent_eq_some _ _ _ _ _).1 h
    exact ⟨(index_pos_iff _ _).1 hpos, hT ▸ h1, hTp ▸ h2, hU ▸ h3, hTp ▸ h4⟩
  · rintro ⟨hpos, h1, h2, h3, h4⟩
    refine ⟨_, (parseContent_eq_some tp lookup filename content _).2
      ⟨(index_pos_iff _ _).2 hpos, rfl, ?_⟩⟩
    unfold valid parseHeader
    change (List.foldl (parseLine tp) _ (headerLines content)).Title ≠ [] ∧
      (List.foldl (parseLine tp) _ (headerLines content)).template ≠ [] ∧
      (List.foldl (parseLine tp) _ (headerLines content)).URI ≠ [] ∧
      lookup (List.foldl (parseLine tp) _ (headerLines content)).template = true
    rw [header_Title, header_template, header_URI]
    exact ⟨h1, h2, h3, h4⟩

/-- A line that does not start with the key does not count for the value of the field. -/
theorem fieldValue_skip (key line : Str) (hline : HasPrefix line key = false)
    (pre post : List Str) :
    fieldValue key (pre ++ [line] ++ post) = fieldValue key (pre ++ post) := by
  unfold fieldValue
  simp only [List.filter_append, List.filter_cons, List.filter_nil, hline]
  simp

theorem headerLines_no_header (content : Str) (h : ¬ 0 < Index content separator) :
    headerLines content = [[]] := by
  have h0 : (Index content separator).toNat = 0 := by
    have := index_ge content separator
    omega
  unfold headerLines headerOf
  rw [h0]
  rfl

theorem dateLine_hasPrefix (S : Str) : HasPrefix ("date: ".toList ++ S) "date: ".toList = true := by
  rw [hasPrefix_iff]
  exact List.prefix_append _ _

theorem dateLine_not_title (S : Str) :
    HasPrefix ("date: ".toList ++ S) "title: ".toList = false := by
  rw [Bool.eq_false_iff]
  intro h
  exact absurd (key_clash h (dateLine_hasPrefix S) (by decide) (by decide)) (by decide)

theorem dateLine_not_template (S : Str) :
    HasPrefix ("date: ".toList ++ S) "template: ".toList = false := by
  rw [Bool.eq_false_iff]
  intro h
  exact absurd (key_clash h (dateLine_hasPrefix S) (by decide) (by decide)) (by decide)

theorem dateLine_not_uri (S : Str) :
    HasPrefix ("date: ".toList ++ S) "uri: ".toList = false := by
  rw [Bool.eq_false_iff]
  intro h
  exact absurd (key_clash h (dateLine_hasPrefix S) (by decide) (by decide)) (by decide)

/-- Taking a `date: ` line out of the header of a document does not change whether the
document is accepted. -/
theorem accepted_skip_date (lookup : Str → Bool) (content content' S : Str)
    (pre post : List Str)
    (hlines : headerLines content = pre ++ ["date: ".toList ++ S] ++ post)
    (hlines' : headerLines content' = pre ++ post) :
    accepted lookup content ↔ accepted lookup content' := by
  have hpos : 0 < Index content separator := by
    by_contra hneg
    rw [headerLines_no_header content hneg] at hlines
    have hlen := congrArg List.length hlines
    simp only [List.length_append, List.length_cons, List.length_nil] at hlen
    have hpre : pre = [] := List.length_eq_zero.1 (by omega)
    subst hpre
    simp at hlines
  have e1 := fieldValue_skip _ _ (dateLine_not_title S) pre post
  have e2 := fieldValue_skip _ _ (dateLine_not_template S) pre post
  have e3 := fieldValue_skip _ _ (dateLine_not_uri S) pre post
  unfold accepted
  rw [← index_pos_iff, ← index_pos_iff, hlines, hlines', e1, e2, e3]
  constructor
  · rintro ⟨-, h1, h2, h3, h4⟩
    refine ⟨?_, h1, h2, h3, h4⟩
    by_contra hneg
    rw [headerLines_no_header content' hneg] at hlines'
    rw [← hlines'] at h1
    exact h1 rfl
  · rintro ⟨-, h1, h2, h3, h4⟩
    exact ⟨hpos, h1, h2, h3, h4⟩

/-- Lines without the prefix `date: ` leave the date as it is. -/
theorem foldl_Date_no_date (tp : Str → Option Time) :
    ∀ (ls : List Str) (p : pageMetadata),
      (∀ l ∈ ls, HasPrefix l "date: ".toList = false) →
      (ls.foldl (parseLine tp) p).Date = p.Date := by
  intro ls
  induction ls with
  | nil => intro p _; rfl
  | cons l ls ih =>
    intro p h
    rw [List.foldl_cons, ih _ (fun l' hl' => h l' (List.mem_cons_of_mem _ hl')),
      parseLine_Date, h l (List.mem_cons_self _ _)]
    rfl

theorem parseLine_bad_date (tp : Str → Option Time) (S : Str) (hS : tp S = none)
    (p : pageMetadata) : (parseLine tp p ("date: ".toList ++ S)).Date = zeroTime := by
  rw [parseLine_Date, dateLine_hasPrefix]
  have hd : ("date: ".toList ++ S).drop 6 = S := rfl
  simp only [if_true, hd, hS]
  rfl

/-! ## Lemmas: sorting -/

theorem insertLeft_perm {α : Type} (less : α → α → Bool) (x : α) :
    ∀ left : List α, (insertLeft less x left).Perm (x :: left) := by
  intro left
  induction left with
  | nil => exact List.Perm.refl _
  | cons y left ih =>
    unfold insertLeft
    split_ifs
    · exact ((List.Perm.cons y ih).trans (List.Perm.swap x y left))
    · exact List.Perm.refl _

theorem foldl_insertLeft_perm {α : Type} (less : α → α → Bool) :
    ∀ (data left : List α),
      (data.foldl (fun left x => insertLeft less x left) left).Perm (data ++ left) := by
  intro data
  induction data with
  | nil => intro left; exact List.Perm.refl _
  | cons x data ih =>
    intro left
    rw [List.foldl_cons]
    refine (ih _).trans ?_
    refine (List.Perm.append_left data (insertLeft_perm less x left)).trans ?_
    exact (List.perm_middle).trans (List.Perm.refl _)

/-- The result of the insertion sort is a rearrangement of the data. -/
theorem insertionSort_perm {α : Type} (less : α → α → Bool) (data : List α) :
    (insertionSort less data).Perm data := by
  unfold insertionSort
  refine (List.reverse_perm _).trans ?_
  simpa using foldl_insertLeft_perm less data []

theorem insertLeft_pairwise {α : Type} (less : α → α → Bool)
    (hasymm : ∀ a b, less a b = true → less b a = false)
    (hneg : ∀ a b c, less a b = false → less b c = false → less a c = false) (x : α) :
    ∀ left : List α, left.Pairwise (fun y z => less y z = false) →
      (insertLeft less x left).Pairwise (fun y z => less y z = false) := by
  intro left
  induction left with
  | nil => intro _; exact List.pairwise_singleton _ _
  | cons y left ih =>
    intro h
    obtain ⟨hy, hleft⟩ := List.pairwise_cons.1 h
    unfold insertLeft
    split_ifs with hxy
    · refine List.pairwise_cons.2 ⟨?_, ih hleft⟩
      intro z hz
      rcases List.mem_cons.1 ((List.Perm.mem_iff (insertLeft_perm less x left)).1 hz)
        with hz | hz
      · rw [hz]; exact hasymm _ _ hxy
      · exact hy z hz
    · have hxy' : less x y = false := by simpa using hxy
      refine List.pairwise_cons.2 ⟨?_, h⟩
      intro z hz
      rcases List.mem_cons.1 hz with hz | hz
      · rw [hz]; exact hxy'
      · exact hneg _ _ _ hxy' (hy z hz)

/-- The result of the insertion sort is sorted: no element is less than one before it. -/
theorem insertionSort_pairwise {α : Type} (less : α → α → Bool)
    (hasymm : ∀ a b, less a b = true → less b a = false)
    (hneg : ∀ a b c, less a b = false → less b c = false → less a c = false)
    (data : List α) :
    (insertionSort less data).Pairwise (fun a b => less b a = false) := by
  unfold insertionSort
  rw [List.pairwise_reverse]
  have key : ∀ (data left : List α), left.Pairwise (fun y z => less y z = false) →
      (data.foldl (fun left x => insertLeft less x left) left).Pairwise
        (fun y z => less y z = false) := by
    intro data
    induction data with
    | nil => intro left h; exact h
    | cons x data ih =>
      intro left h
      rw [List.foldl_cons]
      exact ih _ (insertLeft_pairwise less hasymm hneg x left h)
  exact key data [] List.Pairwise.nil

theorem lessEntries_asymm (a b : pageMetadata) (h : lessEntries a b = true) :
    lessEntries b a = false := by
  unfold lessEntries Before at *
  simp only [decide_eq_true_eq, decide_eq_false_iff_not] at *
  exact lt_asymm h

theorem lessEntries_neg_trans (a b c : pageMetadata) (h1 : lessEntries a b = false)
    (h2 : lessEntries b c = false) : lessEntries a c = false := by
  unfold lessEntries Before at *
  simp only [decide_eq_false_iff_not, not_lt] at *
  exact le_trans h1 h2

theorem lessEntries_trans (a b c : pageMetadata) (h1 : lessEntries a b = true)
    (h2 : lessEntries b c = true) : lessEntries a c = true := by
  unfold lessEntries Before at *
  simp only [decide_eq_true_eq] at *
  exact lt_trans h2 h1

/-- The insertion sort meets the contract of `sort.Slice`. -/
theorem insertionSort_contract : SortSliceContract insertionSort := by
  intro less hasymm _ hneg data
  exact ⟨insertionSort_perm less data,
    (insertionSort_pairwise less hasymm hneg data).chain'⟩

/-- Under the contract of `sort.Slice`, the entries sorted for the feed are a rearrangement
of the entries, with non-increasing dates. -/
theorem sorted_entries
    (sort : (pageMetadata → pageMetadata → Bool) → List pageMetadata → List pageMetadata)
    (hsort : SortSliceContract sort) (entries : List pageMetadata) :
    (sort lessEntries entries).Perm entries ∧
    (sort lessEntries entries).Pairwise (fun a b => b.Date ≤ a.Date) := by
  obtain ⟨hperm, hchain⟩ :=
    hsort lessEntries lessEntries_asymm lessEntries_trans lessEntries_neg_trans entries
  refine ⟨hperm, ?_⟩
  have hdates : (sort lessEntries entries).Chain' (fun a b => b.Date ≤ a.Date) := by
    refine hchain.imp ?_
    intro a b h
    unfold lessEntries Before at h
    simp only [decide_eq_false_iff_not, not_lt] at h
    exact h
  haveI : IsTrans pageMetadata (fun a b => b.Date ≤ a.Date) :=
    ⟨fun _ _ _ h1 h2 => le_trans h2 h1⟩
  exact List.chain'_iff_pairwise.1 hdates

/-- Two lists with the same elements, both with non-increasing dates, list the same dates in
the same order. -/
theorem dates_eq_of_perm (s1 s2 : List pageMetadata) (hperm : s1.Perm s2)
    (h1 : s1.Pairwise (fun a b => b.Date ≤ a.Date))
    (h2 : s2.Pairwise (fun a b => b.Date ≤ a.Date)) :
    s1.map (fun e => e.Date) = s2.map (fun e => e.Date) := by
  have p : (s1.map (fun e => e.Date)).Perm (s2.map (fun e => e.Date)) := hperm.map _
  have q1 : (s1.map (fun e => e.Date)).Pairwise (fun x y : Int => x ≥ y) :=
    List.pairwise_map.2 h1
  have q2 : (s2.map (fun e => e.Date)).Pairwise (fun x y : Int => x ≥ y) :=
    List.pairwise_map.2 h2
  exact List.eq_of_perm_of_sorted p q1 q2

/-- Two lists with the same elements that agree under a function injective on them are
equal. -/
theorem eq_of_perm_of_map_eq {β : Type} (f : pageMetadata → β) :
    ∀ (s1 s2 : List pageMetadata), s1.Perm s2 → s1.map f = s2.map f →
      (∀ a ∈ s1, ∀ b ∈ s1, f a = f b → a = b) → s1 = s2 := by
  intro s1
  induction s1 with
  | nil =>
    intro s2 hperm _ _
    exact (List.Perm.nil_eq hperm)
  | cons a t ih =>
    intro s2 hperm hmap hinj
    cases s2 with
    | nil => simp at hmap
    | cons b u =>
      simp only [List.map_cons, List.cons.injEq] at hmap
      have hb : b ∈ a :: t := (List.Perm.mem_iff hperm).2 (List.mem_cons_self _ _)
      have hab : a = b := hinj a (List.mem_cons_self _ _) b hb hmap.1
      subst hab
      have ht : t = u := ih u hperm.cons_inv hmap.2
        (fun x hx y hy => hinj x (List.mem_cons_of_mem _ hx) y (List.mem_cons_of_mem _ hy))
      rw [ht]

/-! ## Lemmas: the loop of `build` -/

theorem buildLoop_cons_error {σ ε τ : Type} (E : Env σ ε τ) (tpl : τ) (file : Str)
    (files : List Str) (w : σ) (fe : List pageMetadata) (err : ε)
    (h : parseFile E tpl w file = .error err) :
    buildLoop E tpl (file :: files) w fe = ([.parseFile file], .error err) := by
  rw [buildLoop]
  simp only [h]

theorem buildLoop_cons_skip {σ ε τ : Type} (E : Env σ ε τ) (tpl : τ) (file : Str)
    (files : List Str) (w : σ) (fe : List pageMetadata)
    (h : parseFile E tpl w file = .ok none) :
    buildLoop E tpl (file :: files) w fe =
      (.parseFile file :: (buildLoop E tpl files w fe).1, (buildLoop E tpl files w fe).2) := by
  rw [buildLoop]
  simp only [h]

theorem buildLoop_cons_fail {σ ε τ : Type} (E : Env σ ε τ) (tpl : τ) (file : Str)
    (files : List Str) (w : σ) (fe : List pageMetadata) (page : pageMetadata) (err : ε)
    (h : parseFile E tpl w file = .ok (some page))
    (hg : generatePage E tpl w page = .error err) :
    buildLoop E tpl (file :: files) w fe =
      ([.parseFile file, .generatePage page], .error err) := by
  rw [buildLoop]
  simp only [h, hg]

theorem buildLoop_cons_render {σ ε τ : Type} (E : Env σ ε τ) (tpl : τ) (file : Str)
    (files : List Str) (w w1 : σ) (fe : List pageMetadata) (page : pageMetadata)
    (h : parseFile E tpl w file = .ok (some page))
    (hg : generatePage E tpl w page = .ok w1) :
    buildLoop E tpl (file :: files) w fe =
      (.parseFile file :: .generatePage page ::
        (buildLoop E tpl files w1 (if page.rss then fe ++ [page] else fe)).1,
       (buildLoop E tpl files w1 (if page.rss then fe ++ [page] else fe)).2) := by
  rw [buildLoop]
  simp only [h, hg]

/-- The loop over a list of files in two parts: the second part runs from the world and the
feed entries the first part ends with, and does not run when the first part fails. -/
theorem buildLoop_append {σ ε τ : Type} (E : Env σ ε τ) (tpl : τ) (rest : List Str) :
    ∀ (pre : List Str) (w : σ) (feedEntries : List pageMetadata),
      buildLoop E tpl (pre ++ rest) w feedEntries =
        match buildLoop E tpl pre w feedEntries with
        | (calls, .error err) => (calls, .error err)
        | (calls, .ok (w1, feedEntries1)) =>
          (calls ++ (buildLoop E tpl rest w1 feedEntries1).1,
            (buildLoop E tpl rest w1 feedEntries1).2) := by
  intro pre
  induction pre with
  | nil => intro w fe; simp [buildLoop]
  | cons file pre ih =>
    intro w fe
    rw [List.cons_append]
    cases hp : parseFile E tpl w file with
    | error err =>
      rw [buildLoop_cons_error E tpl file _ w fe err hp,
        buildLoop_cons_error E tpl file _ w fe err hp]
    | ok r =>
      cases r with
      | none =>
        rw [buildLoop_cons_skip E tpl file _ w fe hp, buildLoop_cons_skip E tpl file _ w fe hp,
          ih]
        rcases buildLoop E tpl pre w fe with ⟨calls, _ | ⟨w1, fe1⟩⟩ <;> rfl
      | some page =>
        cases hg : generatePage E tpl w page with
        | error err =>
          rw [buildLoop_cons_fail E tpl file _ w fe page err hp hg,
            buildLoop_cons_fail E tpl file _ w fe page err hp hg]
        | ok w1 =>
          rw [buildLoop_cons_render E tpl file _ w w1 fe page hp hg,
            buildLoop_cons_render E tpl file _ w w1 fe page hp hg, ih]
          rcases buildLoop E tpl pre w1
            (if page.rss = true then fe ++ [page] else fe) with ⟨calls, _ | ⟨w2, fe2⟩⟩ <;> rfl

/-- The loop does not call `generateFeed`. -/
theorem buildLoop_feedCalls {σ ε τ : Type} (E : Env σ ε τ) (tpl : τ) :
    ∀ (files : List Str) (w : σ) (feedEntries : List pageMetadata),
      feedCalls (buildLoop E tpl files w feedEntries).1 = [] := by
  intro files
  induction files with
  | nil => intro w fe; rfl
  | cons file files ih =>
    intro w fe
    cases hp : parseFile E tpl w file with
    | error err => rw [buildLoop_cons_error E tpl file _ w fe err hp]; rfl
    | ok r =>
      cases r with
      | none =>
        rw [buildLoop_cons_skip E tpl file _ w fe hp]
        simp only [feedCalls]
        exact ih _ _
      | some page =>
        cases hg : generatePage E tpl w page with
        | error err => rw [buildLoop_cons_fail E tpl file _ w fe page err hp hg]; rfl
        | ok w1 =>
          rw [buildLoop_cons_render E tpl file _ w w1 fe page hp hg]
          simp only [feedCalls]
          exact ih _ _

/-- When the loop ends without an error, it has called `parseFile` on every file, in order,
and the feed entries are those it started with followed by the rendered pages that have the
feed flag. -/
theorem buildLoop_ok {σ ε τ : Type} (E : Env σ ε τ) (tpl : τ) :
    ∀ (files : List Str) (w : σ) (feedEntries : List pageMetadata) (calls : List Call)
      (w1 : σ) (feedEntries1 : List pageMetadata),
      buildLoop E tpl files w feedEntries = (calls, .ok (w1, feedEntries1)) →
      parsedFiles calls = files ∧
      feedEntries1 = feedEntries ++ (renderedPages calls).filter (fun page => page.rss) := by
  intro files
  induction files with
  | nil =>
    intro w fe calls w1 fe1 h
    simp only [buildLoop, Prod.mk.injEq, Except.ok.injEq] at h
    obtain ⟨rfl, -, rfl⟩ := h
    simp [parsedFiles, renderedPages]
  | cons file files ih =>
    intro w fe calls w1 fe1 h
    cases hp : parseFile E tpl w file with
    | error err =>
      rw [buildLoop_cons_error E tpl file _ w fe err hp] at h
      simp at h
    | ok r =>
      cases r with
      | none =>
        rw [buildLoop_cons_skip E tpl file _ w fe hp] at h
        simp only [Prod.mk.injEq] at h
        obtain ⟨hc, hr⟩ := h
        obtain ⟨h1, h2⟩ := ih w fe _ w1 fe1 (Prod.ext rfl hr)
        subst hc
        simp only [parsedFiles, renderedPages, h1]
        exact ⟨trivial, h2⟩
      | some page =>
        cases hg : generatePage E tpl w page with
        | error err =>
          rw [buildLoop_cons_fail E tpl file _ w fe page err hp hg] at h
          simp at h
        | ok w2 =>
          rw [buildLoop_cons_render E tpl file _ w w2 fe page hp hg] at h
          simp only [Prod.mk.injEq] at h
          obtain ⟨hc, hr⟩ := h
          obtain ⟨h1, h2⟩ := ih w2 _ _ w1 fe1 (Prod.ext rfl hr)
          subst hc
          simp only [parsedFiles, renderedPages, h1, List.filter_cons]
          refine ⟨trivial, ?_⟩
          rw [h2]
          by_cases hrss : page.rss = true
          · simp [hrss]
          · simp [hrss]

/-! ## Lemmas: `build` -/

theorem build_glob_error {σ ε τ : Type} (E : Env σ ε τ) (w : σ) (srcFolder tplFolder : Str)
    (err : ε) (h : E.parseGlob w (tplFolder ++ "/*.html".toList) = .error err) :
    build E w srcFolder tplFolder = ([], .error err) := by
  unfold build
  simp only [h]

theorem build_browse_error {σ ε τ : Type} (E : Env σ ε τ) (w : σ) (srcFolder tplFolder : Str)
    (tpl : τ) (err : ε) (h : E.parseGlob w (tplFolder ++ "/*.html".toList) = .ok tpl)
    (hb : browse E w srcFolder = .error err) :
    build E w srcFolder tplFolder = ([], .error err) := by
  unfold build
  simp only [h, hb]

theorem build_loop_error {σ ε τ : Type} (E : Env σ ε τ) (w : σ) (srcFolder tplFolder : Str)
    (tpl : τ) (files : List Str) (calls : List Call) (err : ε)
    (h : E.parseGlob w (tplFolder ++ "/*.html".toList) = .ok tpl)
    (hb : browse E w srcFolder = .ok files)
    (hl : buildLoop E tpl files w [] = (calls, .error err)) :
    build E w srcFolder tplFolder = (calls, .error err) := by
  unfold build
  simp only [h, hb, hl]

theorem build_loop_ok {σ ε τ : Type} (E : Env σ ε τ) (w : σ) (srcFolder tplFolder : Str)
    (tpl : τ) (files : List Str) (calls : List Call) (w1 : σ) (fe : List pageMetadata)
    (h : E.parseGlob w (tplFolder ++ "/*.html".toList) = .ok tpl)
    (hb : browse E w srcFolder = .ok files)
    (hl : buildLoop E tpl files w [] = (calls, .ok (w1, fe))) :
    build E w srcFolder tplFolder =
      (calls ++ (buildFeed E tpl w1 fe).1, (buildFeed E tpl w1 fe).2) := by
  unfold build
  simp only [h, hb, hl]

/-- The feed is generated only on a non-empty list of entries, and only after the loop. -/
theorem buildFeed_nil {σ ε τ : Type} (E : Env σ ε τ) (tpl : τ) (w : σ) :
    buildFeed E tpl w [] = ([], .ok w) := by
  unfold buildFeed
  simp

theorem build_feedCalls_of_rendered {σ ε τ : Type} (E : Env σ ε τ) (w : σ)
    (srcFolder tplFolder : Str) :
    (∀ es ∈ feedCalls (build E w srcFolder tplFolder).1,
      es = (renderedPages (build E w srcFolder tplFolder).1).filter (fun p => p.rss) ∧
      es ≠ []) := by
  intro es hes
  cases hg : E.parseGlob w (tplFolder ++ "/*.html".toList) with
  | error err =>
    rw [build_glob_error E w srcFolder tplFolder err hg] at hes
    simp [feedCalls] at hes
  | ok tpl =>
    cases hb : browse E w srcFolder with
    | error err =>
      rw [build_browse_error E w srcFolder tplFolder tpl err hg hb] at hes
      simp [feedCalls] at hes
    | ok files =>
      rcases hl : buildLoop E tpl files w [] with ⟨calls, err | ⟨w1, fe⟩⟩
      · rw [build_loop_error E w srcFolder tplFolder tpl files calls err hg hb hl] at hes
        have := buildLoop_feedCalls E tpl files w []
        rw [hl] at this
        rw [this] at hes
        simp at hes
      · have hfc := buildLoop_feedCalls E tpl files w []
        rw [hl] at hfc
        obtain ⟨-, hfe⟩ := buildLoop_ok E tpl files w [] calls w1 fe hl
        rw [build_loop_ok E w srcFolder tplFolder tpl files calls w1 fe hg hb hl] at hes ⊢
        simp only [feedCalls_append, hfc, List.nil_append, renderedPages_append,
          (buildFeed_rendered E tpl w1 fe).1, List.append_nil] at hes ⊢
        unfold buildFeed at hes
        split_ifs at hes with hlen
        · simp only [feedCalls, List.mem_singleton] at hes
          subst hes
          refine ⟨by simpa using hfe, ?_⟩
          intro hnil
          rw [hnil] at hlen
          simp at hlen
        · simp [feedCalls] at hes

/-- What a successful call of `generatePage` did: the file named by the `URI` of the page
was created, and the template of the page was executed into it with the page as data. -/
theorem generatePage_ok {σ ε τ : Type} (E : Env σ ε τ) (tpl : τ) (w w' : σ)
    (page : pageMetadata) (h : generatePage E tpl w page = .ok w') :
    ∃ w1 w2 w3, E.create w1 page.URI = .ok w2 ∧
      E.executeTemplate tpl w2 page.URI page.template (.page page) = .ok w3 ∧
      w' = E.close w3 page.URI := by
  unfold generatePage at h
  simp only at h
  split at h
  · cases h
  · rename_i w1 _
    split at h
    · cases h
    · rename_i w2 hc
      split at h
      · cases h
      · rename_i w3 he
        injection h with h
        exact ⟨w1, w2, w3, hc, he, h.symm⟩

/-- When the reads and the renderings of the run all succeed, the loop ends without an error
and has rendered, in order, the pages that `parseContent` returns for the files with the
contents read. -/
theorem buildLoop_allSucceed {σ ε τ : Type} (E : Env σ ε τ) (tpl : τ) :
    ∀ (files contents : List Str) (w : σ) (fe : List pageMetadata),
      allSucceed E tpl files contents w →
      ∃ calls w1 fe1, buildLoop E tpl files w fe = (calls, .ok (w1, fe1)) ∧
        renderedPages calls =
          (files.zip contents).filterMap
            (fun fc => parseContent E.timeParse (E.lookup tpl) fc.1 fc.2) := by
  intro files
  induction files with
  | nil =>
    intro contents w fe h
    cases contents with
    | nil => exact ⟨[], w, fe, rfl, rfl⟩
    | cons c cs => exact absurd h (by simp [allSucceed])
  | cons file files ih =>
    intro contents w fe h
    cases contents with
    | nil => exact absurd h (by simp [allSucceed])
    | cons content contents =>
      rw [allSucceed] at h
      obtain ⟨hr, hrest⟩ := h
      have hp : parseFile E tpl w file =
          .ok (parseContent E.timeParse (E.lookup tpl) file content) := by
        unfold parseFile
        rw [hr]
      cases hpc : parseContent E.timeParse (E.lookup tpl) file content with
      | none =>
        rw [hpc] at hp hrest
        obtain ⟨calls, w1, fe1, hl, hrp⟩ := ih contents w fe hrest
        refine ⟨.parseFile file :: calls, w1, fe1, ?_, ?_⟩
        · rw [buildLoop_cons_skip E tpl file files w fe hp, hl]
        · simp only [renderedPages, List.zip_cons_cons, List.filterMap_cons, hpc, hrp]
      | some page =>
        rw [hpc] at hp hrest
        obtain ⟨w2, hg, hrest'⟩ := hrest
        obtain ⟨calls, w1, fe1, hl, hrp⟩ :=
          ih contents w2 (if page.rss then fe ++ [page] else fe) hrest'
        refine ⟨.parseFile file :: .generatePage page :: calls, w1, fe1, ?_, ?_⟩
        · rw [buildLoop_cons_render E tpl file files w w2 fe page hp hg, hl]
        · simp only [renderedPages, List.zip_cons_cons, List.filterMap_cons, hpc, hrp]

/-- The pages that `parseContent` returns for a list of files with their contents are those
of the accepted contents, each with the name of its file and the `uri` of its header. -/
theorem filterMap_parseContent (tp : Str → Option Time) (lookup : Str → Bool)
    (pairs : List (Str × Str)) :
    (pairs.filterMap (fun fc => parseContent tp lookup fc.1 fc.2)).map
        (fun page => (page.filename, page.URI)) =
      (pairs.filter (fun fc => decide (accepted lookup fc.2))).map
        (fun fc => (fc.1, fieldValue "uri: ".toList (headerLines fc.2))) := by
  induction pairs with
  | nil => rfl
  | cons fc pairs ih =>
    have hiff := parseContent_isSome_iff tp lookup fc.1 fc.2
    cases hpc : parseContent tp lookup fc.1 fc.2 with
    | none =>
      rw [hpc] at hiff
      have hna : ¬ accepted lookup fc.2 := fun ha => by
        have := hiff.2 ha
        simp at this
      simp only [List.filterMap_cons, hpc, List.filter_cons, hna, decide_False]
      simpa using ih
    | some page =>
      rw [hpc] at hiff
      have ha : accepted lookup fc.2 := hiff.1 rfl
      obtain ⟨-, -, hU, hF⟩ := parseContent_fields tp lookup fc.1 fc.2 page hpc
      simp only [List.filterMap_cons, hpc, List.filter_cons, ha, decide_True, List.map_cons,
        if_true, hU, hF]
      rw [ih]

/-! ## The claims -/

/-- C1: whenever `parseFile` returns a page, the page is valid: its `Title`, its template
name and its `URI` are non-empty and the template name resolves in the registry; and every
page that `build` hands to `generatePage` is valid for the registry that `build` loaded. -/
theorem parseFile_page_valid {σ ε τ : Type} (E : Env σ ε τ) :
    (∀ (tpl : τ) (w : σ) (filename : Str) (page : pageMetadata),
      parseFile E tpl w filename = .ok (some page) → valid (E.lookup tpl) page) ∧
    (∀ (w : σ) (srcFolder tplFolder : Str) (page : pageMetadata),
      page ∈ renderedPages (build E w srcFolder tplFolder).1 →
      ∃ tpl, E.parseGlob w (tplFolder ++ "/*.html".toList) = .ok tpl ∧
        valid (E.lookup tpl) page) := by
  constructor
  · intro tpl w filename page h
    obtain ⟨content, -, hc⟩ := parseFile_ok_some E tpl w filename page h
    exact ((parseContent_eq_some _ _ _ _ _).1 hc).2.2
  · intro w srcFolder tplFolder page h
    unfold build at h
    split at h
    · simp [renderedPages] at h
    · rename_i tpl htpl
      refine ⟨tpl, htpl, ?_⟩
      split at h
      · simp [renderedPages] at h
      · rename_i files hfiles
        split at h
        · rename_i calls err hloop
          have := buildLoop_rendered_valid E tpl files w [] page
          rw [hloop] at this
          exact this h
        · rename_i calls w1 feedEntries hloop
          simp only [renderedPages_append, (buildFeed_rendered E tpl w1 feedEntries).1,
            List.append_nil] at h
          have := buildLoop_rendered_valid E tpl files w [] page
          rw [hloop] at this
          exact this h

theorem parseFile_page_valid_witness :
    valid (fun name => ["t".toList].contains name) pageA :=
  (parseFile_page_valid (demoEnv [("a.md".toList, docA)] ["t".toList] [])).1
    ["t".toList] [] "a.md".toList _ rfl

/-- C2: a content in which the separator does not occur, or occurs first at index 0, makes
`parseFile` return the soft outcome (no page, no error), whatever the rest of the content and
the template registry are. -/
theorem parseFile_no_header {σ ε τ : Type} (E : Env σ ε τ) (tpl : τ) (w : σ)
    (filename content : Str) (hread : E.readFile w filename = .ok content)
    (h : ¬ separator <:+: content ∨ separator <+: content) :
    parseFile E tpl w filename = .ok none := by
  have hidx : Index content separator ≤ 0 := by
    rcases h with h | h
    · rw [index_absent _ _ h]; decide
    · rw [index_zero _ _ h]
  unfold parseFile
  rw [hread]
  simp only
  unfold parseContent
  simp only
  rw [if_pos hidx]

theorem parseFile_no_header_witness :
    parseFile (demoEnv [("b.md".toList, docNoHeader)] ["t".toList] []) ["t".toList] []
        "b.md".toList = .ok none ∧
    parseFile (demoEnv [("e.md".toList, docEmptyHeader)] ["t".toList] []) ["t".toList] []
        "e.md".toList = .ok none :=
  ⟨parseFile_no_header _ _ _ _ docNoHeader rfl (Or.inl (by decide)),
   parseFile_no_header _ _ _ _ docEmptyHeader rfl (Or.inr (by decide))⟩

/-- C3, as stated, fails, on two counts.  With the single source file `a.md` of content
`docA`, the read and the rendering of the run succeed, and `build` still returns an error:
the one `generateFeed` returns when `os.Create` fails on `feed.xml`.  And the document
`docTitleTwice`, whose header has the line `title: A`, a template that resolves and a uri,
is not rendered, because a later line `title: ` leaves the title empty. -/
theorem build_renders_counterexample :
    allSucceed (demoEnv [("a.md".toList, docA)] ["t".toList, "rss".toList]
        ["feed.xml".toList]) ["t".toList, "rss".toList] ["a.md".toList] [docA] [] ∧
    build (demoEnv [("a.md".toList, docA)] ["t".toList, "rss".toList] ["feed.xml".toList])
        [] "src".toList "tpl".toList =
      ([.parseFile "a.md".toList, .generatePage pageA, .generateFeed [pageA]],
       .error "permission denied".toList) ∧
    0 < Index docTitleTwice separator ∧
    "title: A".toList ∈ headerLines docTitleTwice ∧
    "template: t".toList ∈ headerLines docTitleTwice ∧
    "uri: a".toList ∈ headerLines docTitleTwice ∧
    allSucceed (demoEnv [("a.md".toList, docTitleTwice)] ["t".toList, "rss".toList] [])
        ["t".toList, "rss".toList] ["a.md".toList] [docTitleTwice] [] ∧
    build (demoEnv [("a.md".toList, docTitleTwice)] ["t".toList, "rss".toList] [])
        [] "src".toList "tpl".toList = ([.parseFile "a.md".toList], .ok []) :=
  ⟨⟨rfl, _, rfl, trivial⟩, rfl, by decide, by decide, by decide, by decide,
    ⟨rfl, trivial⟩, rfl⟩

/-- C3, amended: when the template set is loaded, the scan succeeds, and the reads and the
renderings (the calls of `generatePage`) of the run all succeed, `build` parses every scanned
file and renders, in scan order and once each, exactly the files whose content is accepted
(separator first at a position greater than 0; non-empty title, template and uri in the
header, where of several lines with the same key the last one counts; template name
resolving in the registry), each as the page `parseFile` reads from it, at the path given by
the `uri` of its header; the other files are skipped.  Then `build` returns no error when no
rendered page has the feed flag, and otherwise returns what `generateFeed` returns on the
rendered pages that have it. -/
theorem build_renders_accepted {σ ε τ : Type} (E : Env σ ε τ) (w : σ)
    (srcFolder tplFolder : Str) (tpl : τ) (files contents : List Str)
    (htpl : E.parseGlob w (tplFolder ++ "/*.html".toList) = .ok tpl)
    (hfiles : browse E w srcFolder = .ok files)
    (hrun : allSucceed E tpl files contents w) :
    renderedPages (build E w srcFolder tplFolder).1 =
      (files.zip contents).filterMap
        (fun fc => parseContent E.timeParse (E.lookup tpl) fc.1 fc.2) ∧
    (renderedPages (build E w srcFolder tplFolder).1).map
        (fun page => (page.filename, page.URI)) =
      ((files.zip contents).filter (fun fc => decide (accepted (E.lookup tpl) fc.2))).map
        (fun fc => (fc.1, fieldValue "uri: ".toList (headerLines fc.2))) ∧
    parsedFiles (build E w srcFolder tplFolder).1 = files ∧
    ((renderedPages (build E w srcFolder tplFolder).1).filter (fun page => page.rss) = [] →
      ∃ w1, (build E w srcFolder tplFolder).2 = .ok w1) ∧
    ((renderedPages (build E w srcFolder tplFolder).1).filter (fun page => page.rss) ≠ [] →
      ∃ w1, (build E w srcFolder tplFolder).2 =
        generateFeed E tpl w1
          ((renderedPages (build E w srcFolder tplFolder).1).filter (fun page => page.rss))) ∧
    (∀ (w1 w2 : σ) (page : pageMetadata), generatePage E tpl w1 page = .ok w2 →
      ∃ v1 v2 v3, E.create v1 page.URI = .ok v2 ∧
        E.executeTemplate tpl v2 page.URI page.template (.page page) = .ok v3 ∧
        w2 = E.close v3 page.URI) := by
  obtain ⟨calls, w1, fe1, hl, hrp⟩ := buildLoop_allSucceed E tpl files contents w [] hrun
  have hb := build_loop_ok E w srcFolder tplFolder tpl files calls w1 fe1 htpl hfiles hl
  obtain ⟨hpf, hfe⟩ := buildLoop_ok E tpl files w [] calls w1 fe1 hl
  rw [List.nil_append] at hfe
  have hrc : renderedPages (build E w srcFolder tplFolder).1 = renderedPages calls := by
    rw [hb]
    simp only [renderedPages_append, (buildFeed_rendered E tpl w1 fe1).1, List.append_nil]
  have hr : renderedPages (build E w srcFolder tplFolder).1 =
      (files.zip contents).filterMap
        (fun fc => parseContent E.timeParse (E.lookup tpl) fc.1 fc.2) := hrc.trans hrp
  refine ⟨hr, ?_, ?_, ?_, ?_, fun v w2 page h => generatePage_ok E tpl v w2 page h⟩
  · rw [hr]
    exact filterMap_parseContent _ _ _
  · rw [hb]
    simp only [parsedFiles_append, (buildFeed_rendered E tpl w1 fe1).2, List.append_nil]
    exact hpf
  · intro hnone
    rw [hrc, ← hfe] at hnone
    refine ⟨w1, ?_⟩
    rw [hb, hnone, buildFeed_nil]
  · intro hsome
    rw [hrc, ← hfe] at hsome ⊢
    refine ⟨w1, ?_⟩
    rw [hb]
    unfold buildFeed
    rw [if_pos (List.length_pos.2 hsome)]

theorem build_renders_accepted_witness :
    renderedPages (build (demoEnv demoSources ["t".toList, "rss".toList] []) []
        "src".toList "tpl".toList).1 = [pageA, pageD] ∧
    (renderedPages (build (demoEnv demoSources ["t".toList, "rss".toList] []) []
        "src".toList "tpl".toList).1).map (fun page => (page.filename, page.URI)) =
      [("a.md".toList, "a".toList), ("d.md".toList, "d".toList)] ∧
    parsedFiles (build (demoEnv demoSources ["t".toList, "rss".toList] []) []
        "src".toList "tpl".toList).1 =
      ["a.md".toList, "b.md".toList, "c.md".toList, "d.md".toList] ∧
    (∃ w1, (build (demoEnv demoSources ["t".toList, "rss".toList] []) []
        "src".toList "tpl".toList).2 =
      generateFeed (demoEnv demoSources ["t".toList, "rss".toList] [])
        ["t".toList, "rss".toList] w1
        ((renderedPages (build (demoEnv demoSources ["t".toList, "rss".toList] []) []
          "src".toList "tpl".toList).1).filter (fun page => page.rss))) := by
  have h := build_renders_accepted (demoEnv demoSources ["t".toList, "rss".toList] []) []
    "src".toList "tpl".toList ["t".toList, "rss".toList]
    ["a.md".toList, "b.md".toList, "c.md".toList, "d.md".toList]
    [docA, docNoHeader, docNoTitle, docD] rfl rfl
    ⟨rfl, _, rfl, rfl, rfl, rfl, _, rfl, trivial⟩
  exact ⟨h.1.trans (by decide), h.2.1.trans (by decide), h.2.2.1,
    h.2.2.2.2.1 (by decide)⟩

/-- C4: under the contract of `sort.Slice`, the list that `generateFeed` hands to the feed
template is a permutation of its entries in which dates are non-increasing: no entry is
dated strictly later than an entry listed before it.  In particular entries dated
2023-01-01, 2023-03-01, 2023-02-01, in this order, are listed in the order 2023-03-01,
2023-02-01, 2023-01-01. -/
theorem generateFeed_sorted {σ ε τ : Type} (E : Env σ ε τ)
    (hsort : SortSliceContract E.sortSlice) (entries : List pageMetadata) :
    (∀ (tpl : τ) (w w1 : σ),
      E.create w feedFilename = .ok w1 →
      generateFeed E tpl w entries =
        match E.executeTemplate tpl w1 feedFilename "rss".toList
          (.entries (E.sortSlice lessEntries entries)) with
        | .error err => .error err
        | .ok w2 => .ok (E.close w2 feedFilename)) ∧
    (E.sortSlice lessEntries entries).Perm entries ∧
    (E.sortSlice lessEntries entries).Pairwise (fun a b => b.Date ≤ a.Date) ∧
    (∀ e1 e2 e3 : pageMetadata,
      timeParse "2023-01-01".toList = some e1.Date →
      timeParse "2023-03-01".toList = some e2.Date →
      timeParse "2023-02-01".toList = some e3.Date →
      E.sortSlice lessEntries [e1, e2, e3] = [e2, e3, e1]) := by
  refine ⟨?_, (sorted_entries _ hsort entries).1, (sorted_entries _ hsort entries).2, ?_⟩
  · intro tpl w w1 hcreate
    unfold generateFeed
    simp only [hcreate]
  · intro e1 e2 e3 h1 h2 h3
    have d1 : e1.Date = 63808128000 := by
      have : timeParse "2023-01-01".toList = some 63808128000 := by decide
      rw [this] at h1
      exact (Option.some.inj h1).symm
    have d2 : e2.Date = 63813225600 := by
      have : timeParse "2023-03-01".toList = some 63813225600 := by decide
      rw [this] at h2
      exact (Option.some.inj h2).symm
    have d3 : e3.Date = 63810806400 := by
      have : timeParse "2023-02-01".toList = some 63810806400 := by decide
      rw [this] at h3
      exact (Option.some.inj h3).symm
    obtain ⟨hperm, hpw⟩ := sorted_entries _ hsort [e1, e2, e3]
    have hperm' : (E.sortSlice lessEntries [e1, e2, e3]).Perm [e2, e3, e1] :=
      hperm.trans
        (show ([e1] ++ [e2, e3]).Perm ([e2, e3] ++ [e1]) from List.perm_append_comm)
    have hpw' : [e2, e3, e1].Pairwise (fun a b => b.Date ≤ a.Date) := by
      simp only [List.pairwise_cons, List.mem_cons, List.mem_nil_iff, or_false,
        forall_eq_or_imp, forall_eq, d1, d2, d3, List.Pairwise.nil, and_true,
        List.not_mem_nil, false_implies, implies_true]
      decide
    have hd := dates_eq_of_perm _ _ hperm' hpw hpw'
    refine eq_of_perm_of_map_eq (fun e => e.Date) _ _ hperm' hd ?_
    intro a ha b hb hab
    have ha' := (List.Perm.mem_iff hperm).1 ha
    have hb' := (List.Perm.mem_iff hperm).1 hb
    simp only [List.mem_cons, List.mem_nil_iff, or_false] at ha' hb'
    have hab' : a.Date = b.Date := hab
    rcases ha' with rfl | rfl | rfl <;> rcases hb' with rfl | rfl | rfl <;>
      first
        | rfl
        | (rw [d1, d2] at hab'; exact absurd hab' (by decide))
        | (rw [d1, d3] at hab'; exact absurd hab' (by decide))
        | (rw [d2, d3] at hab'; exact absurd hab' (by decide))

theorem generateFeed_sorted_witness :
    generateFeed (demoEnv [] ["rss".toList] []) ["rss".toList] []
      [entry "x".toList 63808128000, entry "y".toList 63813225600,
        entry "z".toList 63810806400] =
      .ok [(feedFilename, "rss".toList, .entries
        [entry "y".toList 63813225600, entry "z".toList 63810806400,
          entry "x".toList 63808128000])] := by
  have h := generateFeed_sorted (demoEnv [] ["rss".toList] []) insertionSort_contract
    [entry "x".toList 63808128000, entry "y".toList 63813225600, entry "z".toList 63810806400]
  rw [h.1 ["rss".toList] [] [] rfl,
    h.2.2.2 (entry "x".toList 63808128000) (entry "y".toList 63813225600)
      (entry "z".toList 63810806400) (by decide) (by decide) (by decide)]
  rfl

/-- C5: an error from loading the templates or from the scan is returned by `build` before
any file is parsed or rendered; and when, after a part of the scanned files has been
processed without an error, `generatePage` fails on the page of the next file, `build`
returns that error at once: the calls it has made are those of the files processed and the
two for this file, so that no later file is parsed or rendered and `generateFeed` is not
called. -/
theorem build_short_circuit {σ ε τ : Type} (E : Env σ ε τ) (w : σ)
    (srcFolder tplFolder : Str) :
    (∀ err, E.parseGlob w (tplFolder ++ "/*.html".toList) = .error err →
      build E w srcFolder tplFolder = ([], .error err)) ∧
    (∀ tpl err, E.parseGlob w (tplFolder ++ "/*.html".toList) = .ok tpl →
      browse E w srcFolder = .error err →
      build E w srcFolder tplFolder = ([], .error err)) ∧
    (∀ (tpl : τ) (pre : List Str) (file : Str) (post : List Str) (calls : List Call)
      (w1 : σ) (feedEntries : List pageMetadata) (page : pageMetadata) (err : ε),
      E.parseGlob w (tplFolder ++ "/*.html".toList) = .ok tpl →
      browse E w srcFolder = .ok (pre ++ file :: post) →
      buildLoop E tpl pre w [] = (calls, .ok (w1, feedEntries)) →
      parseFile E tpl w1 file = .ok (some page) →
      generatePage E tpl w1 page = .error err →
      build E w srcFolder tplFolder =
        (calls ++ [.parseFile file, .generatePage page], .error err) ∧
      parsedFiles (build E w srcFolder tplFolder).1 = pre ++ [file] ∧
      renderedPages (build E w srcFolder tplFolder).1 = renderedPages calls ++ [page] ∧
      feedCalls (build E w srcFolder tplFolder).1 = []) := by
  refine ⟨fun err h => build_glob_error E w srcFolder tplFolder err h,
    fun tpl err h hb => build_browse_error E w srcFolder tplFolder tpl err h hb, ?_⟩
  intro tpl pre file post calls w1 fe page err htpl hfiles hpre hparse hgen
  have hl : buildLoop E tpl (pre ++ file :: post) w [] =
      (calls ++ [.parseFile file, .generatePage page], .error err) := by
    rw [buildLoop_append, hpre]
    simp only [buildLoop_cons_fail E tpl file post w1 fe page err hparse hgen]
  have hb := build_loop_error E w srcFolder tplFolder tpl _ _ err htpl hfiles hl
  have hfc := buildLoop_feedCalls E tpl pre w []
  rw [hpre] at hfc
  refine ⟨hb, ?_, ?_, ?_⟩
  · rw [hb]
    simp only [parsedFiles_append, (buildLoop_ok E tpl pre w [] calls w1 fe hpre).1,
      parsedFiles]
  · rw [hb]
    simp only [renderedPages_append, renderedPages]
  · rw [hb]
    simp only [feedCalls_append, hfc, feedCalls, List.append_nil]

theorem build_short_circuit_witness :
    build (demoEnv failSources ["t".toList, "rss".toList] ["d".toList]) []
        "src".toList "tpl".toList =
      ([.parseFile "a.md".toList, .generatePage pageA] ++
        [.parseFile "d.md".toList, .generatePage pageD],
       .error "permission denied".toList) :=
  ((build_short_circuit (demoEnv failSources ["t".toList, "rss".toList] ["d".toList]) []
      "src".toList "tpl".toList).2.2 ["t".toList, "rss".toList] ["a.md".toList]
      "d.md".toList ["z.md".toList] [.parseFile "a.md".toList, .generatePage pageA]
      [("a".toList, "t".toList, .page pageA)] [pageA] pageD "permission denied".toList
      rfl rfl rfl rfl rfl).1

/-- C6, as stated, fails: the document `docTrueish` is accepted and its feed flag is set,
although no line of its header is exactly `rss: true` (its feed line is `rss: trueish`). -/
theorem rss_exact_line_counterexample :
    parseFile (demoEnv [("t.md".toList, docTrueish)] ["t".toList] []) ["t".toList] []
        "t.md".toList =
      .ok (some { URI := "u".toList, Title := "T".toList, Description := [],
                  Date := zeroTime, Body := "body".toList, template := "t".toList,
                  filename := "t.md".toList, rss := true }) ∧
    "rss: true".toList ∉ headerLines docTrueish ∧
    "rss: trueish".toList ∈ headerLines docTrueish :=
  ⟨rfl, by decide, by decide⟩

/-- C6, amended: for a document accepted by `parseFile`, the feed flag is true if and only if
some line of the header starts with `rss: true`; in particular a line that is exactly
`rss: true` sets it, and a header without a line starting so leaves it false. -/
theorem rss_iff_line_starts {σ ε τ : Type} (E : Env σ ε τ) (tpl : τ) (w : σ)
    (filename content : Str) (page : pageMetadata)
    (hread : E.readFile w filename = .ok content)
    (h : parseFile E tpl w filename = .ok (some page)) :
    (page.rss = true ↔
      ∃ line, line ∈ headerLines content ∧ HasPrefix line "rss: true".toList = true) ∧
    ("rss: true".toList ∈ headerLines content → page.rss = true) := by
  obtain ⟨content', hread', hc⟩ := parseFile_ok_some E tpl w filename page h
  rw [hread] at hread'
  injection hread' with hcc
  subst hcc
  obtain ⟨-, hpage, -⟩ := (parseContent_eq_some _ _ _ _ _).1 hc
  have hrss : page.rss = (headerLines content).any
      (fun l => HasPrefix l "rss: true".toList) := by
    rw [hpage]
    unfold parseHeader
    rw [foldl_rss]
    rfl
  have hiff : page.rss = true ↔
      ∃ line, line ∈ headerLines content ∧ HasPrefix line "rss: true".toList = true := by
    rw [hrss, List.any_eq_true]
  refine ⟨hiff, fun hmem => hiff.2 ⟨_, hmem, ?_⟩⟩
  rw [hasPrefix_iff]

theorem rss_iff_line_starts_witness :
    (pageA.rss = true ↔ ∃ line, line ∈ headerLines docA ∧
        HasPrefix line "rss: true".toList = true) ∧
    ("rss: true".toList ∈ headerLines docA → pageA.rss = true) :=
  rss_iff_line_starts (demoEnv [("a.md".toList, docA)] ["t".toList] []) ["t".toList] []
    "a.md".toList docA
    pageA rfl rfl

/-- C7: a header line `date: S` whose `S` the date parser rejects sets `Date` to the zero
time, whatever it was before; `parseFile` returns no error on a file with such a line, and
accepts the file exactly when it accepts a document with the same header lines but that one;
and when no later line starts with `date: `, the date of the page returned is the zero
time. -/
theorem bad_date_line {σ ε τ : Type} (E : Env σ ε τ) (tpl : τ) (w : σ)
    (filename content content' S : Str) (pre post : List Str)
    (hread : E.readFile w filename = .ok content)
    (hS : E.timeParse S = none)
    (hlines : headerLines content = pre ++ ["date: ".toList ++ S] ++ post)
    (hlines' : headerLines content' = pre ++ post) :
    (∀ page : pageMetadata,
      (parseLine E.timeParse page ("date: ".toList ++ S)).Date = zeroTime) ∧
    (∃ r, parseFile E tpl w filename = .ok r ∧
      r.isSome = (parseContent E.timeParse (E.lookup tpl) filename content').isSome ∧
      ((∀ l ∈ post, HasPrefix l "date: ".toList = false) →
        ∀ page, r = some page → page.Date = zeroTime)) := by
  refine ⟨parseLine_bad_date E.timeParse S hS, ?_⟩
  refine ⟨parseContent E.timeParse (E.lookup tpl) filename content, ?_, ?_, ?_⟩
  · unfold parseFile
    rw [hread]
  · rw [Bool.eq_iff_iff, parseContent_isSome_iff, parseContent_isSome_iff]
    exact accepted_skip_date _ content content' S pre post hlines hlines'
  · intro hpost page hr
    obtain ⟨-, hpage, -⟩ := (parseContent_eq_some _ _ _ _ _).1 hr
    rw [hpage]
    unfold parseHeader
    have e1 : Split (headerOf content) '\n' = pre ++ ["date: ".toList ++ S] ++ post := hlines
    rw [e1, List.foldl_append, foldl_Date_no_date _ _ _ hpost, List.foldl_append,
      List.foldl_cons, List.foldl_nil]
    exact parseLine_bad_date E.timeParse S hS _

theorem bad_date_line_witness :
    (∀ page : pageMetadata,
      (parseLine timeParse page ("date: ".toList ++ "not-a-date".toList)).Date = zeroTime) ∧
    (∃ r, parseFile (demoEnv [("a.md".toList, docBadDate)] ["t".toList] []) ["t".toList] []
        "a.md".toList = .ok r ∧
      r.isSome = (parseContent timeParse (fun name => ["t".toList].contains name)
        "a.md".toList docGoodDate).isSome ∧
      ((∀ l ∈ ([] : List Str), HasPrefix l "date: ".toList = false) →
        ∀ page, r = some page → page.Date = zeroTime)) :=
  bad_date_line (demoEnv [("a.md".toList, docBadDate)] ["t".toList] []) ["t".toList] []
    "a.md".toList docBadDate docGoodDate "not-a-date".toList
    ["title: A".toList, "template: t".toList, "uri: a".toList, "date: 2023-01-01".toList] []
    rfl (by decide) (by decide) (by decide)

/-- C8: for a content accepted by `parseFile`, the `Body` of the page is the raw text after
the first occurrence of the separator: the content is `header ++ separator ++ Body`, where
`header` is not empty, no occurrence of the separator starts inside `header`, and `header`
contains no occurrence of it. -/
theorem parseFile_body_raw {σ ε τ : Type} (E : Env σ ε τ) (tpl : τ) (w : σ)
    (filename content : Str) (page : pageMetadata)
    (hread : E.readFile w filename = .ok content)
    (h : parseFile E tpl w filename = .ok (some page)) :
    ∃ header : Str, header ≠ [] ∧ content = header ++ separator ++ page.Body ∧
      (∀ k, k < header.length → ¬ separator <+: content.drop k) ∧
      ¬ separator <:+: header := by
  obtain ⟨content', hread', hc⟩ := parseFile_ok_some E tpl w filename page h
  rw [hread] at hread'
  injection hread' with hcc
  subst hcc
  obtain ⟨hpos, hpage, -⟩ := (parseContent_eq_some _ _ _ _ _).1 hc
  obtain ⟨n, hn⟩ := Int.eq_ofNat_of_zero_le (le_of_lt hpos)
  have hbody : page.Body = content.drop (n + separator.length) := by
    rw [hpage, parseHeader_Body, hn]
    rfl
  obtain ⟨h1, h2, h3⟩ := index_split content separator n hn
  refine ⟨content.take n, ?_, ?_, ?_, h3 (by decide)⟩
  · intro he
    rw [he] at h2
    simp at h2
    omega
  · rw [hbody]; exact h1
  · intro k hk
    rw [h2] at hk
    exact (index_spec separator content n hn).2 k hk

theorem parseFile_body_raw_witness :
    ∃ header : Str, header ≠ [] ∧ docA = header ++ separator ++ "body A".toList ∧
      (∀ k, k < header.length → ¬ separator <+: docA.drop k) ∧
      ¬ separator <:+: header :=
  parseFile_body_raw (demoEnv [("a.md".toList, docA)] ["t".toList] []) ["t".toList] []
    "a.md".toList docA
    pageA rfl rfl

/-- C9: when no page that `build` renders has the feed flag set, `generateFeed` is not
called, and `build` returns no error once the loop over the files has ended without one: its
result is the world as the loop left it.  In particular, with no source file at all, `build`
makes no call and returns no error.  (In any case, when `generateFeed` is called, it is on
the rendered pages that have the feed flag, and there is at least one.) -/
theorem build_no_feed {σ ε τ : Type} (E : Env σ ε τ) (w : σ) (srcFolder tplFolder : Str)
    (h : ∀ page ∈ renderedPages (build E w srcFolder tplFolder).1, page.rss = false) :
    feedCalls (build E w srcFolder tplFolder).1 = [] ∧
    (∀ (tpl : τ) (files : List Str) (calls : List Call) (w1 : σ)
      (feedEntries : List pageMetadata),
      E.parseGlob w (tplFolder ++ "/*.html".toList) = .ok tpl →
      browse E w srcFolder = .ok files →
      buildLoop E tpl files w [] = (calls, .ok (w1, feedEntries)) →
      build E w srcFolder tplFolder = (calls, .ok w1)) ∧
    (∀ (tpl : τ), E.parseGlob w (tplFolder ++ "/*.html".toList) = .ok tpl →
      browse E w srcFolder = .ok [] →
      build E w srcFolder tplFolder = ([], .ok w)) := by
  have hnone : (renderedPages (build E w srcFolder tplFolder).1).filter (fun p => p.rss) = [] := by
    rw [List.filter_eq_nil_iff]
    intro page hp
    rw [h page hp]
    simp
  refine ⟨?_, ?_, ?_⟩
  · cases hfc : feedCalls (build E w srcFolder tplFolder).1 with
    | nil => rfl
    | cons es rest =>
      have hes := build_feedCalls_of_rendered E w srcFolder tplFolder es
        (by rw [hfc]; exact List.mem_cons_self _ _)
      rw [hnone] at hes
      exact absurd hes.1 hes.2
  · intro tpl files calls w1 fe htpl hfiles hl
    have hb := build_loop_ok E w srcFolder tplFolder tpl files calls w1 fe htpl hfiles hl
    have hfe := (buildLoop_ok E tpl files w [] calls w1 fe hl).2
    rw [hb] at hnone
    simp only [renderedPages_append, (buildFeed_rendered E tpl w1 fe).1, List.append_nil]
      at hnone
    rw [hnone] at hfe
    simp only [List.append_nil] at hfe
    rw [hb, hfe, buildFeed_nil]
    simp
  · intro tpl htpl hfiles
    have hb := build_loop_ok E w srcFolder tplFolder tpl [] [] w [] htpl hfiles rfl
    rw [hb, buildFeed_nil]
    rfl

theorem build_no_feed_witness :
    feedCalls (build (demoEnv [("d.md".toList, docD)] ["t".toList, "rss".toList] []) []
        "src".toList "tpl".toList).1 = [] ∧
    build (demoEnv [("d.md".toList, docD)] ["t".toList, "rss".toList] []) []
        "src".toList "tpl".toList =
      ([.parseFile "d.md".toList, .generatePage pageD],
       .ok [("d".toList, "t".toList, .page pageD)]) :=
  have h := build_no_feed (demoEnv [("d.md".toList, docD)] ["t".toList, "rss".toList] []) []
    "src".toList "tpl".toList (by decide)
  ⟨h.1, h.2.1 ["t".toList, "rss".toList] ["d.md".toList]
    [.parseFile "d.md".toList, .generatePage pageD] [("d".toList, "t".toList, .page pageD)] []
    rfl rfl rfl⟩

/-- C10, as stated, fails: two feed-eligible documents with the same date are handed to the
feed template in the order in which they were scanned and rendered, so that the two scan
orders of the same two files give two different feeds.  (On two entries `sort.Slice` runs
the insertion sort, which asks `less` once and, the dates being equal, leaves the entries
where they are.) -/
theorem feed_order_counterexample :
    [pageX, pageY].Perm [pageY, pageX] ∧
    build (demoEnv [("x.md".toList, docX), ("y.md".toList, docY)] ["t".toList, "rss".toList]
        []) [] "src".toList "tpl".toList =
      ([.parseFile "x.md".toList, .generatePage pageX, .parseFile "y.md".toList,
        .generatePage pageY, .generateFeed [pageX, pageY]],
       .ok [("x".toList, "t".toList, .page pageX), ("y".toList, "t".toList, .page pageY),
        (feedFilename, "rss".toList, .entries [pageX, pageY])]) ∧
    build (demoEnv [("y.md".toList, docY), ("x.md".toList, docX)] ["t".toList, "rss".toList]
        []) [] "src".toList "tpl".toList =
      ([.parseFile "y.md".toList, .generatePage pageY, .parseFile "x.md".toList,
        .generatePage pageX, .generateFeed [pageY, pageX]],
       .ok [("y".toList, "t".toList, .page pageY), ("x".toList, "t".toList, .page pageX),
        (feedFilename, "rss".toList, .entries [pageY, pageX])]) ∧
    lessEntries pageX pageY = false ∧ lessEntries pageY pageX = false :=
  ⟨List.Perm.swap _ _ _, rfl, rfl, by decide, by decide⟩

/-- C10, amended: under the contract of `sort.Slice`, for every two permutations of a
collection of feed entries, the dates of the lists handed to the feed template are the same,
in the same order; and when no two different entries of the collection have the same date,
the lists handed to the feed template are the same. -/
theorem feed_order_independent {σ ε τ : Type} (E : Env σ ε τ)
    (hsort : SortSliceContract E.sortSlice) (entries entries' : List pageMetadata)
    (hperm : entries.Perm entries') :
    (E.sortSlice lessEntries entries).map (fun e => e.Date) =
      (E.sortSlice lessEntries entries').map (fun e => e.Date) ∧
    ((∀ a ∈ entries, ∀ b ∈ entries, a.Date = b.Date → a = b) →
      E.sortSlice lessEntries entries = E.sortSlice lessEntries entries') ∧
    (∀ (tpl : τ) (w w1 : σ), E.create w feedFilename = .ok w1 →
      (∀ a ∈ entries, ∀ b ∈ entries, a.Date = b.Date → a = b) →
      generateFeed E tpl w entries = generateFeed E tpl w entries') := by
  obtain ⟨hp1, hs1⟩ := sorted_entries _ hsort entries
  obtain ⟨hp2, hs2⟩ := sorted_entries _ hsort entries'
  have hp : (E.sortSlice lessEntries entries).Perm (E.sortSlice lessEntries entries') :=
    (hp1.trans hperm).trans hp2.symm
  have hd := dates_eq_of_perm _ _ hp hs1 hs2
  have heq : (∀ a ∈ entries, ∀ b ∈ entries, a.Date = b.Date → a = b) →
      E.sortSlice lessEntries entries = E.sortSlice lessEntries entries' := by
    intro hinj
    refine eq_of_perm_of_map_eq (fun e => e.Date) _ _ hp hd ?_
    intro a ha b hb
    exact hinj a ((List.Perm.mem_iff hp1).1 ha) b ((List.Perm.mem_iff hp1).1 hb)
  refine ⟨hd, heq, ?_⟩
  intro tpl w w1 _ hinj
  unfold generateFeed
  rw [heq hinj]

theorem feed_order_independent_witness :
    (insertionSort lessEntries [entry "x".toList 1, entry "y".toList 2]).map
        (fun e => e.Date) =
      (insertionSort lessEntries [entry "y".toList 2, entry "x".toList 1]).map
        (fun e => e.Date) ∧
    insertionSort lessEntries [entry "x".toList 1, entry "y".toList 2] =
      insertionSort lessEntries [entry "y".toList 2, entry "x".toList 1] :=
  ⟨(feed_order_independent (demoEnv [] ["rss".toList] []) insertionSort_contract
      [entry "x".toList 1, entry "y".toList 2]
      [entry "y".toList 2, entry "x".toList 1] (List.Perm.swap _ _ _)).1,
   (feed_order_independent (demoEnv [] ["rss".toList] []) insertionSort_contract
      [entry "x".toList 1, entry "y".toList 2]
      [entry "y".toList 2, entry "x".toList 1] (List.Perm.swap _ _ _)).2.1 (by decide)⟩

end Plop
